import Mathlib

/-
Shallow embedding of the tin text editor, src/tin.c version 0.2.1
(the first, canonical translation unit of src/tin.c; the material after
it in that file and under src/unnamed are older snapshots of the same
program and are not the code the claims cite).

Conventions:
* A byte is a `Nat` in [0, 255]; a C string / row content is a `List Nat`.
* C `llong_t` / `ullong_t` quantities are modeled by `Nat` (they are
  guarded to be nonnegative at every use modeled here); `ndisp` can go
  negative in principle, so it is an `Int`.
* `chars[len]` is the nul terminator in C; reads at or past `len` are
  modeled by `List.getD _ _ 0`, i.e. they yield byte 0, which is what the
  C program reads at index `len`.
* Key codes returned by `read_key` are `Int` because the C `char` is
  signed on the program targets (x86-64 and arm64-apple, no
  -funsigned-char in the Makefile): a byte b >= 128 arrives in
  `handle_key` and `prompt` as the negative int b - 256.
-/

/-- TIN_TAB_STOP, tin.c line 23. -/
def TIN_TAB_STOP : Nat := 4

/-- TIN_QUIT_TIMES, tin.c line 25. -/
def TIN_QUIT_TIMES : Nat := 2

/-- UTF_BODY_BYTE macro, tin.c line 39: (c & 0xC0) == 0x80, a UTF-8
continuation byte.  The macro is applied both to row bytes (Nat) and to
ints from read_key; for a signed char value c = b - 256 the two low bits
of the high nibble agree with those of the byte b, so the byte form is
used everywhere with the conversion done at the call site. -/
def UTF_BODY_BYTE (c : Nat) : Bool := c &&& 192 == 128

/-- UTF_HEAD_BYTE macro, tin.c line 38: (c & 0xC0) == 0xC0. -/
def UTF_HEAD_BYTE (c : Nat) : Bool := c &&& 192 == 192

/-- VISIBLE_BYTE macro, tin.c line 40. -/
def VISIBLE_BYTE (c : Nat) : Bool := UTF_HEAD_BYTE c || !UTF_BODY_BYTE c

/-- enum named_key, tin.c lines 42-58. -/
def RETURN : Int := 13

def ESC : Int := 27

def BACKSPACE : Int := 127

def ARROW_UP : Int := 1000

def ARROW_DOWN : Int := 1001

def ARROW_RIGHT : Int := 1002

def ARROW_LEFT : Int := 1003

def DEL_KEY : Int := 1004

def HOME_KEY : Int := 1005

def END_KEY : Int := 1006

def PAGE_UP : Int := 1007

def PAGE_DOWN : Int := 1008

/-- CTRL_KEY of x, s, f, h and l, tin.c line 27. -/
def CTRL_X : Int := 24

def CTRL_S : Int := 19

def CTRL_F : Int := 6

def CTRL_H : Int := 8

def CTRL_L : Int := 12

/- ------------------------------------------------------------------ -/
/- cx_to_rx and rx_to_cx, tin.c lines 312-341                          -/
/- ------------------------------------------------------------------ -/

/-- One iteration of the loop body of cx_to_rx (tin.c lines 314-322)
acting on the accumulator rx: a tab advances to the next multiple of
TIN_TAB_STOP, a continuation byte is skipped, any other byte advances by
one column. -/
def rx_step (rx : Nat) (c : Nat) : Nat :=
  if c = 9 then rx + (TIN_TAB_STOP - rx % TIN_TAB_STOP)
  else if UTF_BODY_BYTE c then rx
  else rx + 1

/-- cx_to_rx (tin.c lines 312-324): rendered column of raw byte index cx.
The C loop reads chars[0..cx); callers always pass cx <= len. -/
def cx_to_rx (chars : List Nat) (cx : Nat) : Nat :=
  (chars.take cx).foldl rx_step 0

/-- Loop of rx_to_cx (tin.c lines 326-341).  `cx` is the byte index of the
head of `rest` inside the full row, `cur_rx` the rendered column reached
so far.  On a continuation byte the C `continue` skips the `cur_rx > rx`
check; after the loop the C function returns cx = row len. -/
def rx_to_cx_go (rest : List Nat) (rx : Nat) (cx : Nat) (cur_rx : Nat) : Nat :=
  match rest with
  | [] => cx
  | c :: cs =>
    if c = 9 then
      if cur_rx + (TIN_TAB_STOP - cur_rx % TIN_TAB_STOP) > rx then cx
      else rx_to_cx_go cs rx (cx + 1) (cur_rx + (TIN_TAB_STOP - cur_rx % TIN_TAB_STOP))
    else if UTF_BODY_BYTE c then rx_to_cx_go cs rx (cx + 1) cur_rx
    else
      if cur_rx + 1 > rx then cx
      else rx_to_cx_go cs rx (cx + 1) (cur_rx + 1)

/-- rx_to_cx (tin.c lines 326-341): raw byte index of rendered column rx. -/
def rx_to_cx (chars : List Nat) (rx : Nat) : Nat :=
  rx_to_cx_go chars rx 0 0

/- ------------------------------------------------------------------ -/
/- read_key, tin.c lines 913-981                                       -/
/- ------------------------------------------------------------------ -/

/-- The digit switch of read_key for sequences ESC [ d ~ (tin.c lines
935-951); an unlisted digit falls through to `return ESC`. -/
def tilde_map (d : Nat) : Int :=
  if d = 49 then HOME_KEY
  else if d = 51 then DEL_KEY
  else if d = 52 then END_KEY
  else if d = 53 then PAGE_UP
  else if d = 54 then PAGE_DOWN
  else if d = 55 then HOME_KEY
  else if d = 56 then END_KEY
  else ESC

/-- The letter switch of read_key for sequences ESC [ c (tin.c lines
952-967); an unlisted byte falls through to `return ESC`. -/
def letter_map (c : Nat) : Int :=
  if c = 65 then ARROW_UP
  else if c = 66 then ARROW_DOWN
  else if c = 67 then ARROW_RIGHT
  else if c = 68 then ARROW_LEFT
  else if c = 72 then HOME_KEY
  else if c = 70 then END_KEY
  else ESC

/-- The switch of read_key for sequences ESC O c (tin.c lines 968-975). -/
def o_map (c : Nat) : Int :=
  if c = 72 then HOME_KEY
  else if c = 70 then END_KEY
  else ESC

/-- The escape branch of read_key (tin.c lines 921-978).  The argument is
the stream of results of the subsequent one-byte reads: `some b` for a
byte, `none` for a read that returned without a byte (VTIME timeout, or
any other read result different from 1, which the code treats alike by
`return ESC`).  seq is initialized to "" so seq[2] is byte 0 unless the
third read happened, making the `seq[2] == 126` test false whenever
seq[1] was not a digit. -/
def read_key_esc (s : List (Option Nat)) : Int :=
  match s with
  | some s0 :: some s1 :: rest =>
    if s0 = 91 then
      if 48 ≤ s1 ∧ s1 ≤ 57 then
        match rest with
        | some s2 :: _ => if s2 = 126 then tilde_map s1 else letter_map s1
        | _ => ESC
      else letter_map s1
    else if s0 = 79 then o_map s1
    else ESC
  | _ => ESC

/-- Conversion of a byte stored in a C `char` to the `int` the program
computes with: char is signed on the build targets, so bytes 128..255
become the negative values -128..-1. -/
def sint8 (b : Nat) : Int :=
  if b % 256 < 128 then ((b % 256 : Nat) : Int) else ((b % 256 : Nat) : Int) - 256

/-- read_key (tin.c lines 913-981): the first successfully read byte `c`
plus the stream of subsequent read results.  A first byte other than ESC
is returned as the (signed-char) int value. -/
def read_key (c : Nat) (s : List (Option Nat)) : Int :=
  if c = 27 then read_key_esc s else sint8 c

/-- The recognized escape sequences as enumerated by claim C7 (and spec
section 4.2): ESC [ d ~ with digit d in {1,3,4,5,6,7,8}, ESC [ c with
letter c in {A,B,C,D,H,F}, ESC O c with c in {H,F}.  Anything else,
including a timeout (`none`) in place of a required byte, is not
recognized. -/
def esc_recognized (s : List (Option Nat)) : Bool :=
  match s with
  | some s0 :: some s1 :: rest =>
    if s0 = 91 then
      if 48 ≤ s1 ∧ s1 ≤ 57 then
        match rest with
        | some s2 :: _ =>
          s2 == 126 &&
            (s1 == 49 || s1 == 51 || s1 == 52 || s1 == 53 || s1 == 54 || s1 == 55 || s1 == 56)
        | _ => false
      else s1 == 65 || s1 == 66 || s1 == 67 || s1 == 68 || s1 == 72 || s1 == 70
    else if s0 = 79 then s1 == 72 || s1 == 70
    else false
  | _ => false

/- ------------------------------------------------------------------ -/
/- Theorems for claim C7                                               -/
/- ------------------------------------------------------------------ -/

/-- Claim C7: for every input byte stream beginning with ESC, if the
following bytes do not form one of the recognized escape sequences
(ESC [ digit ~ with digit in {1,3,4,5,6,7,8}, ESC [ letter with letter in
{A,B,C,D,H,F}, ESC O letter with letter in {H,F}), or a read times out
mid-sequence, read_key returns the plain Escape key.  The embedding is a
total function, so no input in the escape branch terminates the process:
a failed read is `none` and maps to ESC rather than to `die`. -/
theorem read_key_unrecognized_gives_esc (s : List (Option Nat))
    (h : esc_recognized s = false) : read_key 27 s = ESC := by
  rw [read_key, if_pos rfl]
  rcases s with _ | ⟨_ | s0, s⟩
  · rfl
  · rfl
  rcases s with _ | ⟨_ | s1, rest⟩
  · rfl
  · rfl
  simp only [esc_recognized] at h
  simp only [read_key_esc]
  by_cases h0 : s0 = 91
  · rw [if_pos h0] at h ⊢
    by_cases hd : 48 ≤ s1 ∧ s1 ≤ 57
    · rw [if_pos hd] at h ⊢
      rcases rest with _ | ⟨_ | s2, tail⟩
      · rfl
      · rfl
      dsimp only at h ⊢
      by_cases h2 : s2 = 126
      · subst h2
        simp only [beq_self_eq_true, Bool.true_and, Bool.or_eq_false_iff,
          beq_eq_false_iff_ne, ne_eq] at h
        rw [if_pos rfl]
        rw [tilde_map]
        rw [if_neg h.1.1.1.1.1.1, if_neg h.1.1.1.1.1.2, if_neg h.1.1.1.1.2,
          if_neg h.1.1.1.2, if_neg h.1.1.2, if_neg h.1.2, if_neg h.2]
      · rw [if_neg h2, letter_map]
        have d1 : s1 ≠ 65 := by omega
        have d2 : s1 ≠ 66 := by omega
        have d3 : s1 ≠ 67 := by omega
        have d4 : s1 ≠ 68 := by omega
        have d5 : s1 ≠ 72 := by omega
        have d6 : s1 ≠ 70 := by omega
        rw [if_neg d1, if_neg d2, if_neg d3, if_neg d4, if_neg d5, if_neg d6]
    · rw [if_neg hd] at h ⊢
      simp only [Bool.or_eq_false_iff, beq_eq_false_iff_ne, ne_eq] at h
      rw [letter_map]
      rw [if_neg h.1.1.1.1.1, if_neg h.1.1.1.1.2, if_neg h.1.1.1.2,
        if_neg h.1.1.2, if_neg h.1.2, if_neg h.2]
  · rw [if_neg h0] at h ⊢
    by_cases h9 : s0 = 79
    · rw [if_pos h9] at h ⊢
      simp only [Bool.or_eq_false_iff, beq_eq_false_iff_ne, ne_eq] at h
      rw [o_map, if_neg h.1, if_neg h.2]
    · rw [if_neg h9]

/-- Witness for C7 at a concrete unrecognized sequence: ESC [ Z. -/
theorem read_key_unrecognized_gives_esc_witness :
    esc_recognized [some 91, some 90] = false ∧ read_key 27 [some 91, some 90] = ESC :=
  ⟨by decide, read_key_unrecognized_gives_esc [some 91, some 90] (by decide)⟩

/- ------------------------------------------------------------------ -/
/- Theorems for claim C8                                               -/
/- ------------------------------------------------------------------ -/

theorem rx_step_le (rx c : Nat) : rx ≤ rx_step rx c := by
  rw [rx_step]
  split
  · omega
  · split <;> omega

theorem foldl_rx_step_le (l : List Nat) (a : Nat) : a ≤ l.foldl rx_step a := by
  induction l generalizing a with
  | nil => exact Nat.le_refl a
  | cons c cs ih => exact Nat.le_trans (rx_step_le a c) (ih (rx_step a c))

/-- Scanning back the rendered column produced by cx_to_rx recovers the
byte index, provided that index is the row end or a non-continuation
byte.  Generalized over the starting accumulator and base index of the
scan. -/
theorem rx_to_cx_go_inv (cs : List Nat) :
    ∀ (cx base acc : Nat), cx ≤ cs.length →
      (cx = cs.length ∨ UTF_BODY_BYTE (cs.getD cx 0) = false) →
      rx_to_cx_go cs ((cs.take cx).foldl rx_step acc) base acc = base + cx := by
  induction cs with
  | nil =>
    intro cx base acc hle _
    have : cx = 0 := Nat.le_zero.mp hle
    subst this
    rfl
  | cons c cs ih =>
    intro cx base acc hle hb
    match cx with
    | 0 =>
      have hc : UTF_BODY_BYTE c = false := by
        rcases hb with hb | hb
        · simp at hb
        · simpa using hb
      simp only [List.take_zero, List.foldl_nil, rx_to_cx_go]
      by_cases h9 : c = 9
      · rw [if_pos h9]
        have : acc % TIN_TAB_STOP < TIN_TAB_STOP := Nat.mod_lt _ (by decide)
        rw [if_pos (by omega)]
        omega
      · rw [if_neg h9, hc]
        simp only [Bool.false_eq_true, if_false]
        rw [if_pos (by omega)]
        omega
    | Nat.succ k =>
      have hle2 : k ≤ cs.length := by simpa using hle
      have hb2 : k = cs.length ∨ UTF_BODY_BYTE (cs.getD k 0) = false := by
        rcases hb with hb | hb
        · left; simpa using hb
        · right; simpa using hb
      simp only [List.take_succ_cons, List.foldl_cons]
      rw [rx_to_cx_go]
      by_cases h9 : c = 9
      · subst h9
        rw [if_pos rfl]
        have hmono : rx_step acc 9 ≤ (cs.take k).foldl rx_step (rx_step acc 9) :=
          foldl_rx_step_le _ _
        have hstep : rx_step acc 9 = acc + (TIN_TAB_STOP - acc % TIN_TAB_STOP) := by
          rw [rx_step, if_pos rfl]
        rw [if_neg (by omega)]
        have := ih k (base + 1) (rx_step acc 9) hle2 hb2
        rw [hstep] at this
        rw [hstep, this]
        omega
      · rw [if_neg h9]
        by_cases hbc : UTF_BODY_BYTE c = true
        · rw [hbc]
          simp only [if_true]
          have hstep : rx_step acc c = acc := by
            rw [rx_step, if_neg h9, hbc]
            simp
          rw [hstep]
          have := ih k (base + 1) acc hle2 hb2
          rw [this]
          omega
        · have hbc2 : UTF_BODY_BYTE c = false := by
            cases h : UTF_BODY_BYTE c
            · rfl
            · exact absurd h hbc
          rw [hbc2]
          simp only [Bool.false_eq_true, if_false]
          have hstep : rx_step acc c = acc + 1 := by
            rw [rx_step, if_neg h9, hbc2]
            simp
          have hmono : rx_step acc c ≤ (cs.take k).foldl rx_step (rx_step acc c) :=
            foldl_rx_step_le _ _
          rw [if_neg (by omega)]
          have := ih k (base + 1) (rx_step acc c) hle2 hb2
          rw [hstep] at this
          rw [hstep, this]
          omega

/-- Scanner for well-formed UTF-8, carrying the number of continuation
bytes still owed to the last head byte: ASCII bytes stand alone, a 2-,
3- or 4-byte head (110xxxxx, 1110xxxx, 11110xxx) owes one, two or three
continuation bytes (10xxxxxx).  Matches the encoding table in the
comment at tin.c lines 30-37. -/
def utf8_scan : List Nat → Nat → Bool
  | [], need => need == 0
  | c :: cs, 0 =>
    if c < 128 then utf8_scan cs 0
    else if 192 ≤ c ∧ c < 224 then utf8_scan cs 1
    else if 224 ≤ c ∧ c < 240 then utf8_scan cs 2
    else if 240 ≤ c ∧ c < 248 then utf8_scan cs 3
    else false
  | c :: cs, Nat.succ k => UTF_BODY_BYTE c && utf8_scan cs k

/-- A byte list is well-formed UTF-8. -/
def utf8_wf (l : List Nat) : Bool := utf8_scan l 0

/-- Claim C8: for a row holding well-formed UTF-8 and a byte index cx in
[0, len] on a code-point boundary (i.e. cx is the row end or the byte at
cx is not a continuation byte), rx_to_cx inverts cx_to_rx. -/
theorem rx_to_cx_cx_to_rx (chars : List Nat) (cx : Nat)
    (hwf : utf8_wf chars = true) (hle : cx ≤ chars.length)
    (hb : cx = chars.length ∨ UTF_BODY_BYTE (chars.getD cx 0) = false) :
    rx_to_cx chars (cx_to_rx chars cx) = cx := by
  have := rx_to_cx_go_inv chars cx 0 0 hle hb
  simpa [rx_to_cx, cx_to_rx] using this

/-- Witness for C8 on the row "é\ta" = [195,169,9,97] at cx = 2 (the
boundary after the two-byte character). -/
theorem rx_to_cx_cx_to_rx_witness :
    utf8_wf [195, 169, 9, 97] = true ∧
      rx_to_cx [195, 169, 9, 97] (cx_to_rx [195, 169, 9, 97] 2) = 2 :=
  ⟨by decide,
    rx_to_cx_cx_to_rx [195, 169, 9, 97] 2 (by decide) (by decide) (by decide)⟩

/- ------------------------------------------------------------------ -/
/- Rows, tin.c lines 63-69 and 474-546                                 -/
/- ------------------------------------------------------------------ -/

/-- struct textrow (tin.c lines 63-69).  `len` and `rlen` always equal
the byte counts of the malloc buffers behind `chars` and `render`, so
they are modeled as the list lengths rather than as separate fields. -/
structure textrow where
  chars : List Nat
  render : List Nat
  ndisp : Int
deriving DecidableEq

/-- The all-empty row, used where the C code would read through a row
pointer that is NULL or out of range. -/
def row0 : textrow := { chars := [], render := [], ndisp := 0 }

/-- The render-writing loop of update_row (tin.c lines 489-499), with i
the number of bytes written so far.  For a tab the C writes one space and
then spaces until i is a multiple of TIN_TAB_STOP, which from index i is
exactly TIN_TAB_STOP - i % TIN_TAB_STOP spaces in total.  (The
tab-counting loop at lines 475-480 runs its index backwards and never
executes, so it contributes nothing to the bytes stored; it only
undersizes the malloc, a heap-level defect with no value-level content.)-/
def render_chars : List Nat → Nat → List Nat
  | [], _ => []
  | c :: cs, i =>
    if c = 9 then
      List.replicate (TIN_TAB_STOP - i % TIN_TAB_STOP) 32
        ++ render_chars cs (i + (TIN_TAB_STOP - i % TIN_TAB_STOP))
    else c :: render_chars cs (i + 1)

/-- update_row (tin.c lines 474-503): recompute render from chars; rlen
becomes the length of the new render; chars and ndisp are untouched. -/
def update_row (row : textrow) : textrow :=
  { row with render := render_chars row.chars 0 }

/-- Row construction inside insert_row (tin.c lines 523-532): chars is a
copy of the argument bytes, ndisp is set to 0, then update_row runs. -/
def mk_row (s : List Nat) : textrow :=
  update_row { chars := s, render := [], ndisp := 0 }

/-- Truncation of the int argument of insert_char into the C char that
is stored (tin.c line 558). -/
def byte_of_int (c : Int) : Nat := (c % 256).toNat

/-- insert_char (tin.c lines 550-561) acting on the row value; at is
clamped into [0, len]; E.dirty++ is applied by the caller model. -/
def insert_char (row : textrow) (at_ : Nat) (c : Int) : textrow :=
  update_row
    { row with
      chars :=
        row.chars.insertIdx (if at_ > row.chars.length then row.chars.length else at_)
          (byte_of_int c) }

/-- delete_char (tin.c lines 563-570) acting on the row value: no-op when
at is out of range. -/
def delete_char (row : textrow) (at_ : Nat) : textrow :=
  if at_ ≥ row.chars.length then row
  else update_row { row with chars := row.chars.eraseIdx at_ }

/-- row_strcat (tin.c lines 538-546) acting on the row value. -/
def row_strcat (row : textrow) (s : List Nat) : textrow :=
  update_row { row with chars := row.chars ++ s }

/- ------------------------------------------------------------------ -/
/- Editor state, tin.c lines 71-86, and the editing operations          -/
/- ------------------------------------------------------------------ -/

/-- struct config (tin.c lines 71-86), restricted to the fields the
claims are about.  nrows is rows.length. -/
structure EState where
  rows : List textrow
  cx : Nat
  cy : Nat
  rx : Nat
  rowoff : Nat
  coloff : Nat
  winrows : Nat
  wincols : Nat
  lnmargin : Nat
  dirty : Nat
deriving DecidableEq

/-- insert_row (tin.c lines 516-536): no-op when at > nrows. -/
def insert_row (st : EState) (at_ : Nat) (s : List Nat) : EState :=
  if at_ > st.rows.length then st
  else { st with rows := st.rows.insertIdx at_ (mk_row s), dirty := st.dirty + 1 }

/-- del_row (tin.c lines 505-514): no-op when at >= nrows. -/
def del_row (st : EState) (at_ : Nat) : EState :=
  if at_ ≥ st.rows.length then st
  else { st with rows := st.rows.eraseIdx at_, dirty := st.dirty + 1 }

/-- The row insert_at_cursor leaves at the cursor row (tin.c lines
579-581): the byte inserted at cx, with ndisp stepped when the byte is
not a continuation byte. -/
def ins_row2 (c : Int) (row : textrow) (cx : Nat) : textrow :=
  if VISIBLE_BYTE (byte_of_int c) then
    { insert_char row cx c with ndisp := (insert_char row cx c).ndisp + 1 }
  else insert_char row cx c

/-- The unconditional tail of insert_at_cursor on the (possibly just
extended) state: replace the cursor row and advance cx; the dirty
increment is the one of insert_char. -/
def ins_apply (c : Int) (st1 : EState) : EState :=
  { st1 with rows := st1.rows.set st1.cy (ins_row2 c (st1.rows.getD st1.cy row0) st1.cx),
             cx := st1.cx + 1, dirty := st1.dirty + 1 }

/-- insert_at_cursor (tin.c lines 574-582): append an empty row first if
the cursor sits one past the last row (insert_row keeps cx, cy and
winrows), insert the byte at cx, advance cx, and count the byte in ndisp
if it is not a continuation byte. -/
def insert_at_cursor (c : Int) (st : EState) : EState :=
  ins_apply c (if st.cy = st.rows.length then insert_row st st.rows.length [] else st)

/-- The deletion loop of backspace_at_cursor for cx > 0 (tin.c lines
592-598): delete chars[cx-1] while it is a continuation byte, then delete
one more byte; cx ends on the deleted head byte's position.  Each C
delete_char runs update_row; only the final render matters for the
resulting state and it is recomputed by the caller below.  (If every byte
left of cx were a continuation byte the C loop would read chars[-1]; the
model stops at index 0, and the claims only use this under row
well-formedness, where index 0 is never a continuation byte.) -/
def backspace_chars : List Nat → Nat → List Nat × Nat
  | chars, 0 => (chars, 0)
  | chars, Nat.succ k =>
    if UTF_BODY_BYTE (chars.getD k 0) then backspace_chars (chars.eraseIdx k) k
    else (chars.eraseIdx k, k)

/-- The cx > 0 branch of backspace_at_cursor (tin.c lines 591-599):
delete one code point ending at cx via the backspace_chars loop (each
delete also subtracts one from dirty bookkeeping exactly once per byte
actually removed, i.e. the length difference), then ndisp is decremented
once.  Every C delete_char ran update_row; the surviving render is the
recomputation from the final chars. -/
def backspace_delete (st : EState) : EState :=
  { st with
    rows := st.rows.set st.cy
      (update_row
        { st.rows.getD st.cy row0 with
          chars := (backspace_chars (st.rows.getD st.cy row0).chars st.cx).1,
          ndisp := (st.rows.getD st.cy row0).ndisp - 1 }),
    cx := (backspace_chars (st.rows.getD st.cy row0).chars st.cx).2,
    dirty := st.dirty + ((st.rows.getD st.cy row0).chars.length -
      (backspace_chars (st.rows.getD st.cy row0).chars st.cx).1.length) }

/-- The cx = 0 branch of backspace_at_cursor (tin.c lines 600-604): set
cx to the previous row's pre-merge length, append this row's chars onto
the previous row (row_strcat, one dirty increment), delete this row, and
move cy up. -/
def backspace_merge (st : EState) : EState :=
  { del_row
      { st with cx := (st.rows.getD (st.cy - 1) row0).chars.length,
                rows := st.rows.set (st.cy - 1)
                  (row_strcat (st.rows.getD (st.cy - 1) row0) (st.rows.getD st.cy row0).chars),
                dirty := st.dirty + 1 }
      st.cy
    with cy := st.cy - 1 }

/-- backspace_at_cursor (tin.c lines 584-606). -/
def backspace_at_cursor (st : EState) : EState :=
  if st.cx = 0 ∧ st.cy = 0 then st
  else if st.cy = st.rows.length then st
  else if st.cx > 0 then backspace_delete st
  else backspace_merge st

/-- The cx > 0 branch of newline_at_cursor (tin.c lines 611-617): insert
the bytes from the cursor onward as a new next row, then truncate the
current row to its first cx bytes and recompute its render. -/
def newline_split (st : EState) : EState :=
  { insert_row st (st.cy + 1) ((st.rows.getD st.cy row0).chars.drop st.cx) with
    rows :=
      (insert_row st (st.cy + 1) ((st.rows.getD st.cy row0).chars.drop st.cx)).rows.set st.cy
        (update_row
          { st.rows.getD st.cy row0 with chars := (st.rows.getD st.cy row0).chars.take st.cx }) }

/-- newline_at_cursor (tin.c lines 608-621); both branches keep cy, so
the trailing cy increment acts on the original cy. -/
def newline_at_cursor (st : EState) : EState :=
  if st.cx = 0 then { insert_row st st.cy [] with cy := st.cy + 1, cx := 0 }
  else { newline_split st with cy := st.cy + 1, cx := 0 }

/- ------------------------------------------------------------------ -/
/- Navigation, tin.c lines 664-717 and the cursor keys of handle_key    -/
/- ------------------------------------------------------------------ -/

/-- The head-of-character repair loop of move_cursor (tin.c lines
698-705) for keys other than ARROW_RIGHT: decrement cx while it is
nonzero and chars[cx] is a continuation byte.  Reads at or past the row
length see the nul terminator (byte 0), which is not a continuation
byte. -/
def repair_left (chars : List Nat) : Nat → Nat
  | 0 => 0
  | Nat.succ k => if UTF_BODY_BYTE (chars.getD (k + 1) 0) then repair_left chars k else k + 1

/-- Number of leading continuation bytes of a list. -/
def skip_body : List Nat → Nat
  | [] => 0
  | c :: cs => if UTF_BODY_BYTE c then skip_body cs + 1 else 0

/-- The same repair loop for ARROW_RIGHT: increment cx while it is
nonzero and chars[cx] is a continuation byte, i.e. skip the run of
continuation bytes starting at cx (the run ends at the latest at the nul
terminator, byte 0). -/
def repair_right (chars : List Nat) (cx : Nat) : Nat :=
  if cx = 0 then 0 else cx + skip_body (chars.drop cx)

/-- The key switch of move_cursor (tin.c lines 666-694). -/
def move_switch (key : Int) (st : EState) : EState :=
  if key = ARROW_UP then
    if st.cy ≠ 0 then { st with cy := st.cy - 1 } else st
  else if key = ARROW_DOWN then
    if st.cy < st.rows.length then { st with cy := st.cy + 1 } else st
  else if key = ARROW_LEFT then
    if st.cx ≠ 0 then { st with cx := st.cx - 1 }
    else if st.cy > 0 then
      { st with cy := st.cy - 1, cx := (st.rows.getD (st.cy - 1) row0).chars.length }
    else st
  else if key = ARROW_RIGHT then
    if st.cy < st.rows.length then
      if st.cx < (st.rows.getD st.cy row0).chars.length then { st with cx := st.cx + 1 }
      else if st.cx = (st.rows.getD st.cy row0).chars.length then
        { st with cy := st.cy + 1, cx := 0 }
      else st
    else st
  else st

/-- The repair loop and final clamp of move_cursor (tin.c lines 696-709)
on the row reached by the switch.  Past the last row the C row pointer is
NULL: the repair loop is skipped (the repair functions are identities on
the empty char list the default row yields there) and the clamp length is
0, which is that empty list's length, so the clamp below uses the char
list length in both cases. -/
def move_clamp (key : Int) (st : EState) : EState :=
  let chars := (st.rows.getD st.cy row0).chars
  let cx1 := if key = ARROW_RIGHT then repair_right chars st.cx else repair_left chars st.cx
  { st with cx := if cx1 > chars.length then chars.length else cx1 }

/-- move_cursor (tin.c lines 664-710). -/
def move_cursor (key : Int) (st : EState) : EState :=
  move_clamp key (move_switch key st)

/-- The while loop of page_cursor (tin.c lines 713-716). -/
def page_loop (key : Int) : Nat → EState → EState
  | 0, st => st
  | Nat.succ n, st => page_loop key n (move_cursor key st)

/-- page_cursor (tin.c lines 712-717). -/
def page_cursor (key : Int) (st : EState) : EState :=
  page_loop (if key = PAGE_UP then ARROW_UP else ARROW_DOWN) st.winrows st

/-- The PAGE_UP / PAGE_DOWN case of handle_key (tin.c lines 1026-1037):
snap cy to the top (resp. clamped bottom) of the viewport, then page. -/
def page_key (up : Bool) (st : EState) : EState :=
  let st1 :=
    if up then { st with cy := st.rowoff }
    else
      let cy := st.rowoff + st.winrows - 1
      { st with cy := if cy > st.rows.length then st.rows.length else cy }
  page_cursor (if up then PAGE_UP else PAGE_DOWN) st1

/- ------------------------------------------------------------------ -/
/- Viewport: scroll and refresh_screen, tin.c lines 371-394, 447-449    -/
/- ------------------------------------------------------------------ -/

/-- nplaces (tin.c lines 112-152) for the nonnegative row counts it is
applied to in refresh_screen. -/
def nplaces (n : Nat) : Nat :=
  if n < 10 then 1
  else if n < 100 then 2
  else if n < 1000 then 3
  else if n < 10000 then 4
  else if n < 100000 then 5
  else if n < 1000000 then 6
  else if n < 10000000 then 7
  else if n < 100000000 then 8
  else if n < 1000000000 then 9
  else if n < 10000000000 then 10
  else if n < 100000000000 then 11
  else if n < 1000000000000 then 12
  else if n < 10000000000000 then 13
  else if n < 100000000000000 then 14
  else if n < 1000000000000000 then 15
  else if n < 10000000000000000 then 16
  else if n < 100000000000000000 then 17
  else if n < 1000000000000000000 then 18
  else 19

/-- scroll (tin.c lines 371-394): recompute rx from cx, then pull the
scroll offsets so the cursor is on screen; the horizontal test uses
E.lnmargin as it currently is. -/
def scroll (st : EState) : EState :=
  let rx := if st.cy < st.rows.length then cx_to_rx (st.rows.getD st.cy row0).chars st.cx else 0
  let rowoff1 := if st.cy < st.rowoff then st.cy else st.rowoff
  let rowoff2 := if st.cy ≥ rowoff1 + st.winrows then st.cy - st.winrows + 1 else rowoff1
  let coloff1 := if rx < st.coloff then rx else st.coloff
  let coloff2 :=
    if rx + st.lnmargin ≥ coloff1 + st.wincols then rx + st.lnmargin - st.wincols + 1
    else coloff1
  { st with rx := rx, rowoff := rowoff2, coloff := coloff2 }

/-- The state update done by refresh_screen (tin.c lines 447-449):
scroll() runs first, then E.lnmargin is recomputed from the row count. -/
def refresh_state (st : EState) : EState :=
  let st1 := scroll st
  { st1 with lnmargin := nplaces st1.rows.length + 1 }

/-- The order claim C6 asserts (gutter width recomputed from the current
row count before the scroll-offset recomputation), written from the
claim's words for comparison with refresh_state. -/
def claim_refresh_state (st : EState) : EState :=
  scroll { st with lnmargin := nplaces st.rows.length + 1 }

/- ------------------------------------------------------------------ -/
/- Main-loop steps for the cursor claims                               -/
/- ------------------------------------------------------------------ -/

/-- The cursor-moving and editing operations quantified over by claim
C1, as dispatched by handle_key (tin.c lines 983-1049): arrow keys via
move_cursor, PageUp/PageDown, Home (cx := 0), End (cx := row len),
printable-byte insertion, Backspace, Return. -/
inductive EditOp where
  | move (key : Int)
  | page (up : Bool)
  | home
  | endk
  | ins (c : Int)
  | backspace
  | newline
deriving DecidableEq

def apply_key : EditOp → EState → EState
  | EditOp.move key, st => move_cursor key st
  | EditOp.page up, st => page_key up st
  | EditOp.home, st => { st with cx := 0 }
  | EditOp.endk, st =>
    if st.cy < st.rows.length then { st with cx := (st.rows.getD st.cy row0).chars.length }
    else st
  | EditOp.ins c, st => insert_at_cursor c st
  | EditOp.backspace, st => backspace_at_cursor st
  | EditOp.newline, st => newline_at_cursor st

/-- One iteration of the main loop (tin.c lines 1075-1078):
refresh_screen (whose state effect is refresh_state) and then one key. -/
def edit_step (op : EditOp) (st : EState) : EState := apply_key op (refresh_state st)

def edit_run (ops : List EditOp) (st : EState) : EState :=
  ops.foldl (fun s op => edit_step op s) st

/-- The cursor property of claim C1: cx is a row boundary (0 or the row
length) or the index of a byte that is not a UTF-8 continuation byte;
past the last row the row is empty, so the property forces cx = 0 there,
matching the clamp in move_cursor. -/
def cx_ok (st : EState) : Bool :=
  st.cx == 0 || st.cx == (st.rows.getD st.cy row0).chars.length ||
    (decide (st.cx < (st.rows.getD st.cy row0).chars.length) &&
      !UTF_BODY_BYTE ((st.rows.getD st.cy row0).chars.getD st.cx 0))

/-- All rows hold well-formed UTF-8. -/
def rows_wf (st : EState) : Bool := st.rows.all (fun r => utf8_wf r.chars)

/-- A run of main-loop steps in which the rows hold well-formed UTF-8 at
every state at which a key is processed. -/
inductive WFRun : EState → List EditOp → EState → Prop
  | nil (s : EState) : WFRun s [] s
  | cons (s : EState) (op : EditOp) (ops : List EditOp) (s2 : EState) :
      rows_wf s = true → WFRun (edit_step op s) ops s2 → WFRun s (op :: ops) s2

/- ------------------------------------------------------------------ -/
/- File I/O: open_file and write_file, tin.c lines 792-898             -/
/- ------------------------------------------------------------------ -/

/-- The sequence of lines getline hands to open_file (tin.c line 805):
the file contents split after every newline byte; the final chunk may
lack the newline.  Every chunk is nonempty and contains a newline only
as its last byte. -/
def getline_chunks : List Nat → List (List Nat)
  | [] => []
  | c :: rest =>
    if c = 10 then [c] :: getline_chunks rest
    else
      match getline_chunks rest with
      | [] => [[c]]
      | l :: ls => (c :: l) :: ls

/-- The per-line strip loop of open_file (tin.c lines 806-807): drop
trailing bytes while the last one is a newline or carriage return. -/
def strip_crlf (l : List Nat) : List Nat :=
  ((l.reverse.dropWhile fun c => c == 10 || c == 13)).reverse

/-- What the strip would do if it removed only a single trailing newline
(the spec-side comparison point for claim C3). -/
def strip_nl (l : List Nat) : List Nat :=
  if l.getLast? = some 10 then l.dropLast else l

/-- The rows open_file inserts for given file contents (tin.c lines
805-809): each getline chunk stripped of its trailing CR/LF bytes, in
file order. -/
def open_file_rows (contents : List Nat) : List (List Nat) :=
  (getline_chunks contents).map strip_crlf

/-- The byte sequence the write loop of write_file produces (tin.c lines
851-863): each row's chars, with a single newline after every row except
the last. -/
def write_rows : List (List Nat) → List Nat
  | [] => []
  | [r] => r
  | r :: s :: rs => r ++ 10 :: write_rows (s :: rs)

/-- An on-disk file as far as write_file observes and changes it:
contents plus the st_mode / st_uid / st_gid fields captured by lstat. -/
structure Inode where
  data : List Nat
  mode : Nat
  uid : Nat
  gid : Nat
deriving DecidableEq

/-- write_file (tin.c lines 817-898) on the error-free path with a
filename already associated: the effect on the file behind the target
path.  `lstatRes` is the result of the lstat at line 831 (`none` models
lstat failure, after which the defaults of lines 819-821 stay: mode 0644
and the process uid/gid).  Steps, in source order: mkstemp creates a
fresh inode (mode 0600, process-owned); the row loop writes the rows
joined by single newlines with no trailing newline; rename makes the
target path refer to that inode (for a symlink target the rename lands
on the readlink destination, the inode outcome modeled is the same);
fchmod and fchown then run on the still-open fd, which now names the
renamed inode, applying the captured permission bits (the low 12 bits of
st_mode; the file-type bits of st_mode are not applied by fchmod) and
the captured owner and group. -/
def write_file_target (rows : List (List Nat)) (lstatRes : Option Inode)
    (procUid procGid : Nat) : Inode :=
  let fmode := match lstatRes with | some st => st.mode | none => 420
  let fuid := match lstatRes with | some st => st.uid | none => procUid
  let fgid := match lstatRes with | some st => st.gid | none => procGid
  let tmp : Inode := { data := [], mode := 384, uid := procUid, gid := procGid }
  let tmp2 := { tmp with data := write_rows rows }
  let target := tmp2
  let target2 := { target with mode := fmode % 4096 }
  let target3 := { target2 with uid := fuid, gid := fgid }
  target3

/-- Loading then immediately saving: the bytes write_file would put on
disk after open_file read `contents` (claims C3). -/
def save_after_load (contents : List Nat) : List Nat :=
  write_rows (open_file_rows contents)

/- ------------------------------------------------------------------ -/
/- prompt, tin.c lines 623-660                                         -/
/- ------------------------------------------------------------------ -/

/-- iscntrl on the int values read_key can produce, in the C locale of
the program: control characters are 0..31 and 127.  For the negative
values -128..-1 (bytes >= 0x80 through the signed char) glibc, musl and
the BSD libcs all report no class, hence false. -/
def iscntrl (c : Int) : Bool := (decide (0 ≤ c) && decide (c ≤ 31)) || c == 127

/-- One iteration of the prompt loop (tin.c lines 631-655) acting on the
collected query bytes: Delete/Backspace/ctrl-h pop one byte; Escape and
Return end the loop leaving the buffer as is; any other key is appended
(as the char truncation of the int) when it is not a control character
and its int value is below 128, otherwise discarded. -/
def prompt_step (query : List Nat) (c : Int) : List Nat :=
  if c = DEL_KEY ∨ c = BACKSPACE ∨ c = CTRL_H then query.dropLast
  else if c = ESC ∨ c = RETURN then query
  else if !iscntrl c && decide (c < 128) then query ++ [byte_of_int c]
  else query

/- ------------------------------------------------------------------ -/
/- quit and the quit_times handling of handle_key, tin.c 900-909,      -/
/- 983-1049                                                            -/
/- ------------------------------------------------------------------ -/

/-- Outcome of one handle_key call as far as termination and the
quit-confirmation counter go: either the process exits (via quit reaching
clear_tty/exit), or the loop continues with a new quit_times value and,
when quit refused, the reported number of presses still needed. -/
inductive QOut where
  | exit
  | cont (quit_times : Nat) (reported : Option Nat)
deriving DecidableEq

/-- quit (tin.c lines 900-909) combined with the CTRL-X dispatch of
handle_key (lines 988-989): `quit(quit_times--, 0)` passes the current
counter and then decrements it; handle_key returns before the reset at
line 1048.  For any other key handle_key falls through to that reset,
`quit_times = TIN_QUIT_TIMES`, whatever the key did (move, edit, save,
find, or nothing).  `dirty` is the dirtiness of the buffer when the key
is processed; its evolution is an input here because every content
mutation and save path leads back to the same reset. -/
def handle_key_quit (c : Int) (dirty : Bool) (quit_times : Nat) : QOut :=
  if c = CTRL_X then
    if dirty ∧ quit_times > 0 then QOut.cont (quit_times - 1) (some quit_times)
    else QOut.exit
  else QOut.cont TIN_QUIT_TIMES none

/-- Iterated handle_key on a list of (key, dirty-at-that-press) events,
starting from counter qt: the index of the event at which the process
exits, if any.  quit_times is a static local of handle_key, so it
persists across iterations of the main loop. -/
def quit_exit_index : List (Int × Bool) → Nat → Option Nat
  | [], _ => none
  | e :: rest, qt =>
    match handle_key_quit e.1 e.2 qt with
    | QOut.exit => some 0
    | QOut.cont qt2 _ => (quit_exit_index rest qt2).map (· + 1)

/- ------------------------------------------------------------------ -/
/- List helper lemmas                                                  -/
/- ------------------------------------------------------------------ -/

theorem tr_getD_set (l : List textrow) (n : Nat) (a : textrow) (h : n < l.length) :
    (l.set n a).getD n row0 = a := by
  induction l generalizing n with
  | nil => simp at h
  | cons x xs ih =>
    match n with
    | 0 => rfl
    | Nat.succ k => exact ih k (by simpa using h)

theorem tr_getD_eraseIdx_lt (l : List textrow) (n k : Nat) (h : k < n) :
    (l.eraseIdx n).getD k row0 = l.getD k row0 := by
  induction l generalizing n k with
  | nil => simp [List.eraseIdx]
  | cons x xs ih =>
    match n, k with
    | Nat.succ m, 0 => rfl
    | Nat.succ m, Nat.succ j => exact ih m j (by omega)

theorem tr_getD_mem (l : List textrow) (n : Nat) (h : n < l.length) :
    l.getD n row0 ∈ l := by
  induction l generalizing n with
  | nil => simp at h
  | cons x xs ih =>
    match n with
    | 0 => exact List.mem_cons_self x xs
    | Nat.succ k => exact List.mem_cons_of_mem x (ih k (by simpa using h))

theorem tr_getD_append_length (l l2 : List textrow) :
    (l ++ l2).getD l.length row0 = l2.getD 0 row0 := by
  induction l with
  | nil => rfl
  | cons x xs ih => simpa using ih

theorem nat_getD_append_length (l l2 : List Nat) :
    (l ++ l2).getD l.length 0 = l2.getD 0 0 := by
  induction l with
  | nil => rfl
  | cons x xs ih => simpa using ih

theorem nat_getD_oob (l : List Nat) (n : Nat) (h : l.length ≤ n) : l.getD n 0 = 0 := by
  induction l generalizing n with
  | nil => simp [List.getD]
  | cons x xs ih =>
    match n with
    | 0 => simp at h
    | Nat.succ k => exact ih k (by simpa using h)

theorem tr_getD_oob (l : List textrow) (n : Nat) (h : l.length ≤ n) : l.getD n row0 = row0 := by
  induction l generalizing n with
  | nil => simp [List.getD]
  | cons x xs ih =>
    match n with
    | 0 => simp at h
    | Nat.succ k => exact ih k (by simpa using h)

theorem nat_getD_insertIdx_succ (l : List Nat) (n : Nat) (a : Nat) (h : n ≤ l.length) :
    (l.insertIdx n a).getD (n + 1) 0 = l.getD n 0 := by
  induction l generalizing n with
  | nil =>
    have : n = 0 := by simpa using h
    subst this
    rfl
  | cons x xs ih =>
    match n with
    | 0 => rfl
    | Nat.succ k => exact ih k (by simpa using h)

theorem nat_getD_drop (l : List Nat) (n : Nat) : l.getD n 0 = (l.drop n).getD 0 0 := by
  induction l generalizing n with
  | nil => simp
  | cons x xs ih =>
    match n with
    | 0 => rfl
    | Nat.succ k => simpa using ih k

theorem nat_getD_add_drop (l : List Nat) (n k : Nat) :
    l.getD (n + k) 0 = (l.drop n).getD k 0 := by
  induction l generalizing n with
  | nil => simp
  | cons x xs ih =>
    match n with
    | 0 =>
      rw [Nat.zero_add]
      rfl
    | Nat.succ m =>
      have : m + 1 + k = (m + k) + 1 := by omega
      rw [this]
      simpa using ih m

theorem nat_drop_eraseIdx (l : List Nat) (k : Nat) : (l.eraseIdx k).drop k = l.drop (k + 1) := by
  induction l generalizing k with
  | nil => simp [List.eraseIdx]
  | cons x xs ih =>
    match k with
    | 0 => rfl
    | Nat.succ m => simpa using ih m

/- ------------------------------------------------------------------ -/
/- Theorems for claim C5                                               -/
/- ------------------------------------------------------------------ -/

/-- Claim C5: the quit-confirmation machine.  (i) the quit key while the
buffer is dirty and the counter n is positive continues (no exit),
decrements the counter and reports n, the number of further presses that
will be needed; (ii) the quit key with the counter at 0, or with a clean
buffer, exits; (iii) every key other than the quit key, which includes
every content mutation and every save, resets the counter to its full
threshold TIN_QUIT_TIMES. -/
theorem quit_confirmation_machine (c : Int) (dirty : Bool) (qt : Nat) :
    (dirty = true → 0 < qt →
      handle_key_quit CTRL_X dirty qt = QOut.cont (qt - 1) (some qt)) ∧
    (dirty = false ∨ qt = 0 → handle_key_quit CTRL_X dirty qt = QOut.exit) ∧
    (c ≠ CTRL_X → handle_key_quit c dirty qt = QOut.cont TIN_QUIT_TIMES none) := by
  refine ⟨?_, ?_, ?_⟩
  · intro hd hq
    rw [handle_key_quit, if_pos rfl, if_pos ⟨by simp [hd], hq⟩]
  · intro h
    rw [handle_key_quit, if_pos rfl, if_neg]
    rcases h with h | h
    · intro hc
      rw [h] at hc
      simp at hc
    · intro hc
      omega
  · intro hc
    rw [handle_key_quit, if_neg hc]

/-- Witness for C5: with the buffer dirty, the counter at the full
threshold 2 decrements to 1 reporting 2; the counter at 0 exits; a
non-quit key (Return) resets the counter to 2. -/
theorem quit_confirmation_machine_witness :
    handle_key_quit CTRL_X true 2 = QOut.cont 1 (some 2) ∧
      handle_key_quit CTRL_X true 0 = QOut.exit ∧
      handle_key_quit RETURN true 0 = QOut.cont TIN_QUIT_TIMES none :=
  ⟨(quit_confirmation_machine RETURN true 2).1 rfl (by decide),
    (quit_confirmation_machine RETURN true 0).2.1 (Or.inr rfl),
    (quit_confirmation_machine RETURN true 0).2.2 (by decide)⟩

/- ------------------------------------------------------------------ -/
/- Theorems for claim C10                                              -/
/- ------------------------------------------------------------------ -/

theorem quit_exit_window (keys : List (Int × Bool)) :
    ∀ (qt i : Nat), qt ≤ TIN_QUIT_TIMES →
      quit_exit_index keys qt = some i →
      (keys.getD i (0, false)).2 = true →
      qt ≤ i ∧ ∀ j, i ≤ j + TIN_QUIT_TIMES → j ≤ i → (keys.getD j (0, false)).1 = CTRL_X := by
  induction keys with
  | nil =>
    intro qt i hqt hex hd
    simp [quit_exit_index] at hex
  | cons e rest ih =>
    intro qt i hqt hex hd
    rw [quit_exit_index] at hex
    by_cases hc : e.1 = CTRL_X
    · rw [handle_key_quit, if_pos hc] at hex
      by_cases hcont : e.2 = true ∧ 0 < qt
      · rw [if_pos hcont] at hex
        simp only [Option.map_eq_some'] at hex
        obtain ⟨i2, hex2, hi⟩ := hex
        subst hi
        have hd2 : (rest.getD i2 (0, false)).2 = true := by
          simpa [List.getD] using hd
        have hqt2 : qt - 1 ≤ TIN_QUIT_TIMES := by omega
        obtain ⟨hle, hwin⟩ := ih (qt - 1) i2 hqt2 hex2 hd2
        constructor
        · omega
        · intro j h1 h2
          match j with
          | 0 => simpa [List.getD] using hc
          | Nat.succ j2 =>
            have := hwin j2 (by omega) (by omega)
            simpa [List.getD] using this
      · rw [if_neg hcont] at hex
        simp only [Option.some.injEq] at hex
        subst hex
        refine ⟨?_, ?_⟩
        · have : ¬(e.2 = true) ∨ qt = 0 := by
            by_cases h2 : e.2 = true
            · right
              by_contra hq
              exact hcont ⟨h2, by omega⟩
            · left; exact h2
          rcases this with h2 | h2
          · exact absurd (by simpa [List.getD] using hd) h2
          · omega
        · intro j h1 h2
          have : j = 0 := by omega
          subst this
          simpa [List.getD] using hc
    · rw [handle_key_quit, if_neg hc] at hex
      simp only [Option.map_eq_some'] at hex
      obtain ⟨i2, hex2, hi⟩ := hex
      subst hi
      have hd2 : (rest.getD i2 (0, false)).2 = true := by
        simpa [List.getD] using hd
      obtain ⟨hle, hwin⟩ := ih TIN_QUIT_TIMES i2 (Nat.le_refl _) hex2 hd2
      constructor
      · have : TIN_QUIT_TIMES ≤ i2 := hle
        omega
      · intro j h1 h2
        match j with
        | 0 =>
          exfalso
          have : (TIN_QUIT_TIMES : Nat) = 2 := rfl
          omega
        | Nat.succ j2 =>
          have := hwin j2 (by omega) (by omega)
          simpa [List.getD] using this

/-- Claim C10: with the counter starting at its threshold, if iterated
handle_key exits at event index i while the buffer is dirty at that
press, then i >= 2 and the three events i-2, i-1, i are all the quit key
(CTRL-X): every key of any other kind resets the counter, so termination
on a dirty buffer needs TIN_QUIT_TIMES + 1 consecutive quit presses with
no intervening key. -/
theorem quit_dirty_needs_consecutive_quits (keys : List (Int × Bool)) (i : Nat)
    (hex : quit_exit_index keys TIN_QUIT_TIMES = some i)
    (hd : (keys.getD i (0, false)).2 = true) :
    2 ≤ i ∧ (keys.getD (i - 2) (0, false)).1 = CTRL_X ∧
      (keys.getD (i - 1) (0, false)).1 = CTRL_X ∧ (keys.getD i (0, false)).1 = CTRL_X := by
  obtain ⟨hle, hwin⟩ := quit_exit_window keys TIN_QUIT_TIMES i (Nat.le_refl _) hex hd
  have h2 : (TIN_QUIT_TIMES : Nat) = 2 := rfl
  refine ⟨by omega, ?_, ?_, ?_⟩
  · exact hwin (i - 2) (by omega) (by omega)
  · exact hwin (i - 1) (by omega) (by omega)
  · exact hwin i (by omega) (by omega)

/-- Witness for C10: three consecutive dirty quit presses exit at index
2, and the theorem reports all three as CTRL-X. -/
theorem quit_dirty_needs_consecutive_quits_witness :
    2 ≤ 2 ∧ ([(CTRL_X, true), (CTRL_X, true), (CTRL_X, true)].getD 0 ((0 : Int), false)).1 = CTRL_X ∧
      ([(CTRL_X, true), (CTRL_X, true), (CTRL_X, true)].getD 1 ((0 : Int), false)).1 = CTRL_X ∧
      ([(CTRL_X, true), (CTRL_X, true), (CTRL_X, true)].getD 2 ((0 : Int), false)).1 = CTRL_X :=
  quit_dirty_needs_consecutive_quits [(CTRL_X, true), (CTRL_X, true), (CTRL_X, true)] 2
    (by decide) (by decide)

/- ------------------------------------------------------------------ -/
/- Theorems for claim C9                                               -/
/- ------------------------------------------------------------------ -/

/-- Counterexample to claim C9 as stated: the prompt loop does not
discard bytes at or above 128.  The byte 0xC3 = 195 (lead byte of a
two-byte UTF-8 character) is returned by read_key as the negative int
-61 because char is signed; -61 passes the `!iscntrl(c) && c < 128`
filter, so it is appended to the query instead of being discarded (the
claim asserts the query would stay empty). -/
theorem prompt_appends_high_byte : prompt_step [] (read_key 195 []) = [195] := by decide

/-- Amended C9: the prompt appends every key whose int value is below
128 and not a control character; bytes 128..255 reach the filter as the
negative values b - 256 (signed char), pass it, and are appended to the
query byte-for-byte, so a query can contain non-ASCII bytes; ASCII
control bytes other than the editing keys (Return, Escape, Backspace,
Delete, ctrl-h) are discarded. -/
theorem prompt_filter (q : List Nat) (b : Nat) :
    (128 ≤ b → b ≤ 255 → prompt_step q (sint8 b) = q ++ [b]) ∧
    (b < 32 → b ≠ 13 → b ≠ 27 → b ≠ 8 → prompt_step q (sint8 b) = q) := by
  constructor
  · intro h1 h2
    have hm : b % 256 = b := Nat.mod_eq_of_lt (by omega)
    have hs : sint8 b = (b : Int) - 256 := by
      rw [sint8, hm, if_neg (by omega)]
    rw [prompt_step, hs]
    rw [if_neg (by rw [DEL_KEY, BACKSPACE, CTRL_H]; omega)]
    rw [if_neg (by rw [ESC, RETURN]; omega)]
    have hctl : iscntrl ((b : Int) - 256) = false := by
      rw [iscntrl]
      simp only [Bool.or_eq_false_iff, Bool.and_eq_false_iff, decide_eq_false_iff_not, not_le,
        beq_eq_false_iff_ne, ne_eq]
      constructor
      · left; omega
      · omega
    rw [hctl]
    have hlt : ((b : Int) - 256 < 128) := by omega
    simp only [Bool.not_false, Bool.true_and, decide_eq_true_eq, hlt, if_pos]
    have hb : byte_of_int ((b : Int) - 256) = b := by
      rw [byte_of_int]
      have : ((b : Int) - 256) % 256 = (b : Int) := by omega
      rw [this]
      exact Int.toNat_natCast b
    rw [hb]
  · intro h1 h2 h3 h4
    have hm : b % 256 = b := Nat.mod_eq_of_lt (by omega)
    have hs : sint8 b = (b : Int) := by
      rw [sint8, hm, if_pos (by omega)]
    rw [prompt_step, hs]
    rw [if_neg (by rw [DEL_KEY, BACKSPACE, CTRL_H]; omega)]
    rw [if_neg (by rw [ESC, RETURN]; omega)]
    have hctl : iscntrl (b : Int) = true := by
      rw [iscntrl]
      simp only [Bool.or_eq_true, Bool.and_eq_true, decide_eq_true_eq]
      left
      omega
    rw [hctl]
    simp

/-- Witness for the amended C9: byte 0xC3 is appended to an empty query
and the control byte 1 (ctrl-a) is discarded. -/
theorem prompt_filter_witness :
    prompt_step [] (sint8 195) = [195] ∧ prompt_step [] (sint8 1) = [] :=
  ⟨(prompt_filter [] 195).1 (by decide) (by decide),
    (prompt_filter [] 1).2 (by decide) (by decide) (by decide) (by decide)⟩

/- ------------------------------------------------------------------ -/
/- Theorems for claim C4                                               -/
/- ------------------------------------------------------------------ -/

theorem write_rows_intercalate (rows : List (List Nat)) :
    write_rows rows = List.intercalate [10] rows := by
  induction rows with
  | nil => rfl
  | cons r rs ih =>
    cases rs with
    | nil => simp [write_rows, List.intercalate, List.intersperse]
    | cons s rs2 =>
      rw [write_rows, ih]
      simp [List.intercalate, List.intersperse]

/-- Claim C4: saving over an existing target whose lstat succeeds leaves
the replaced file with the permission bits (the low twelve mode bits,
e.g. 0640 stays 0640), owner and group captured from the target before
the save, and with the rows joined by a single newline and no trailing
newline as its data. -/
theorem write_file_preserves_attributes (rows : List (List Nat)) (target : Inode)
    (procUid procGid : Nat) :
    (write_file_target rows (some target) procUid procGid).mode = target.mode % 4096 ∧
    (write_file_target rows (some target) procUid procGid).uid = target.uid ∧
    (write_file_target rows (some target) procUid procGid).gid = target.gid ∧
    (write_file_target rows (some target) procUid procGid).data = List.intercalate [10] rows :=
  ⟨rfl, rfl, rfl, write_rows_intercalate rows⟩

/- ------------------------------------------------------------------ -/
/- Theorems for claim C6                                               -/
/- ------------------------------------------------------------------ -/

/-- A frame state with 100 rows whose stored gutter width (2, correct
for a single-digit row count) is stale: the up-to-date value is
nplaces 100 + 1 = 4. -/
def c6_state : EState :=
  { rows := List.replicate 100 (mk_row [97]), cx := 1, cy := 0, rx := 0, rowoff := 0,
    coloff := 0, winrows := 5, wincols := 4, lnmargin := 2, dirty := 0 }

/-- Counterexample to claim C6 as stated: refresh_screen runs scroll()
before recomputing the gutter width, so on c6_state the horizontal
adjustment sees the stale width 2 and leaves coloff = 0, while the
claimed gutter-first order would set coloff = 2; the gutter width is
updated only after scrolling. -/
theorem refresh_uses_stale_gutter :
    (refresh_state c6_state).coloff = 0 ∧ (claim_refresh_state c6_state).coloff = 2 ∧
      (refresh_state c6_state).lnmargin = 4 := by decide

/-- Amended C6: in every frame refresh the scroll-offset recomputation
runs first, using the previous frame's gutter width, and the gutter
width is recomputed from the current row count only afterwards; the
order asserted by the claim agrees with the code exactly when the stored
gutter width is already up to date for the current row count. -/
theorem refresh_gutter_after_scroll (st : EState) :
    (refresh_state st).lnmargin = nplaces st.rows.length + 1 ∧
    (refresh_state st).coloff = (scroll st).coloff ∧
    (st.lnmargin = nplaces st.rows.length + 1 → refresh_state st = claim_refresh_state st) := by
  refine ⟨rfl, rfl, ?_⟩
  intro h
  rw [claim_refresh_state]
  have h1 : ({ st with lnmargin := nplaces st.rows.length + 1 } : EState) = st := by
    rw [← h]
  rw [h1]
  show ({ scroll st with lnmargin := nplaces (scroll st).rows.length + 1 } : EState) = scroll st
  have h2 : nplaces (scroll st).rows.length + 1 = (scroll st).lnmargin := by
    show nplaces st.rows.length + 1 = st.lnmargin
    omega
  rw [h2]

/-- A frame state whose stored gutter width is up to date (one row,
nplaces 1 + 1 = 2). -/
def c6_state2 : EState :=
  { rows := [mk_row [97]], cx := 1, cy := 0, rx := 0, rowoff := 0, coloff := 0,
    winrows := 5, wincols := 4, lnmargin := 2, dirty := 0 }

/-- Witness for the amended C6 at c6_state2. -/
theorem refresh_gutter_after_scroll_witness :
    (refresh_state c6_state2).lnmargin = nplaces c6_state2.rows.length + 1 ∧
      refresh_state c6_state2 = claim_refresh_state c6_state2 :=
  ⟨(refresh_gutter_after_scroll c6_state2).1,
    (refresh_gutter_after_scroll c6_state2).2.2 (by decide)⟩

/- ------------------------------------------------------------------ -/
/- Theorems for claim C3                                               -/
/- ------------------------------------------------------------------ -/

theorem getline_chunks_flatten (l : List Nat) : (getline_chunks l).flatten = l := by
  induction l with
  | nil => rfl
  | cons c rest ih =>
    rw [getline_chunks]
    by_cases h : c = 10
    · rw [if_pos h]
      simp [ih, h]
    · rw [if_neg h]
      cases hm : getline_chunks rest with
      | nil =>
        have : rest = [] := by
          rw [hm] at ih
          simpa using ih.symm
        simp [this]
      | cons l1 ls =>
        rw [hm] at ih
        simp only [List.flatten_cons] at ih ⊢
        simp [ih]

/-- Shape invariant of the getline chunk list: every chunk is a
newline-free body followed by a newline, except possibly the last chunk,
which is then a nonempty newline-free body. -/
def chunk_wf : List (List Nat) → Prop
  | [] => True
  | c :: cs =>
    ∃ xs, (10 : Nat) ∉ xs ∧
      ((c = xs ++ [10] ∧ chunk_wf cs) ∨ (c = xs ∧ xs ≠ [] ∧ cs = []))

theorem getline_chunks_wf (l : List Nat) : chunk_wf (getline_chunks l) := by
  induction l with
  | nil => trivial
  | cons c rest ih =>
    rw [getline_chunks]
    by_cases h : c = 10
    · rw [if_pos h]
      exact ⟨[], by simp, Or.inl ⟨by simp [h], ih⟩⟩
    · rw [if_neg h]
      cases hm : getline_chunks rest with
      | nil =>
        refine ⟨[c], ?_, Or.inr ⟨rfl, by simp, rfl⟩⟩
        simp only [List.mem_singleton]
        intro he
        exact h he.symm
      | cons l1 ls =>
        rw [hm] at ih
        obtain ⟨xs, hx, hcase⟩ := ih
        refine ⟨c :: xs, ?_, ?_⟩
        · simp only [List.mem_cons, not_or]
          exact ⟨fun he => h he.symm, hx⟩
        · rcases hcase with ⟨hc, hwf⟩ | ⟨hc, hne, hcs⟩
          · left
            constructor
            · rw [hc]
              rfl
            · exact hwf
          · right
            exact ⟨by rw [hc], by simp, hcs⟩

theorem strip_nl_concat_nl (xs : List Nat) : strip_nl (xs ++ [10]) = xs := by
  rw [strip_nl, if_pos (by rw [List.getLast?_concat]), List.dropLast_concat]

theorem strip_nl_no_nl (xs : List Nat) (h10 : (10 : Nat) ∉ xs) : strip_nl xs = xs := by
  rw [strip_nl, if_neg]
  intro hl
  obtain ⟨ys, hys⟩ := List.getLast?_eq_some_iff.mp hl
  apply h10
  rw [hys]
  simp

theorem roundtrip_aux (cs : List (List Nat)) (hwf : chunk_wf cs)
    (hstrip : ∀ c ∈ cs, strip_crlf c = strip_nl c) :
    write_rows (cs.map strip_crlf) = cs.flatten ∨
      cs.flatten = write_rows (cs.map strip_crlf) ++ [10] := by
  induction cs with
  | nil => left; rfl
  | cons c cs2 ih =>
    obtain ⟨xs, hx, hcase⟩ := hwf
    rcases hcase with ⟨hc, hwf2⟩ | ⟨hc, hne, hcs⟩
    · have hs : strip_crlf c = xs := by
        rw [hstrip c (List.mem_cons_self c cs2), hc, strip_nl_concat_nl]
      cases cs2 with
      | nil =>
        right
        simp only [List.map_cons, List.map_nil, hs]
        rw [hc]
        simp [write_rows]
      | cons d ds =>
        have ih2 := ih hwf2 (fun x hx2 => hstrip x (List.mem_cons_of_mem c hx2))
        simp only [List.map_cons] at ih2 ⊢
        rw [hs, write_rows]
        rcases ih2 with h2 | h2
        · left
          rw [h2, List.flatten_cons, hc]
          simp
        · right
          rw [List.flatten_cons, hc, h2]
          simp
    · subst hcs
      have hs : strip_crlf c = xs := by
        rw [hstrip c (List.mem_cons_self c []), hc, strip_nl_no_nl xs hx]
      left
      simp only [List.map_cons, List.map_nil, hs]
      rw [hc]
      simp [write_rows]

/-- Counterexample to claim C3 as stated: the file "a\r\n" (bytes
[97, 13, 10]) loads as the single row "a" because open_file strips every
trailing CR and LF, and saves as "a"; the result differs from the
original by the lost carriage return, not merely by a missing trailing
newline. -/
theorem load_save_loses_cr :
    ¬(save_after_load [97, 13, 10] = [97, 13, 10] ∨
      ([97, 13, 10] : List Nat) = save_after_load [97, 13, 10] ++ [10]) := by decide

/-- Amended C3: loading a file and immediately saving it reproduces the
original bytes up to one possibly-missing trailing newline, provided no
line of the file ends in a carriage return, i.e. the CR/LF strip of each
getline chunk removes nothing beyond the chunk's terminating newline. -/
theorem load_save_roundtrip (contents : List Nat)
    (h : ∀ c ∈ getline_chunks contents, strip_crlf c = strip_nl c) :
    save_after_load contents = contents ∨
      contents = save_after_load contents ++ [10] := by
  have haux := roundtrip_aux (getline_chunks contents) (getline_chunks_wf contents) h
  rw [getline_chunks_flatten] at haux
  rw [save_after_load, open_file_rows]
  exact haux

/-- Witness for the amended C3 on the contents "a\nb" = [97, 10, 98]. -/
theorem load_save_roundtrip_witness :
    save_after_load [97, 10, 98] = [97, 10, 98] ∨
      ([97, 10, 98] : List Nat) = save_after_load [97, 10, 98] ++ [10] :=
  load_save_roundtrip [97, 10, 98] (by decide)

/- ------------------------------------------------------------------ -/
/- Theorems for claim C2                                               -/
/- ------------------------------------------------------------------ -/

/-- The number of non-continuation bytes of a byte list, the glyph count
the claim says ndisp holds for the render. -/
def count_visible (l : List Nat) : Nat := (l.filter fun c => VISIBLE_BYTE c).length

/-- A row whose render (and hence rlen, its length) is exactly the
recomputation update_row produces from its chars. -/
def row_rendered (r : textrow) : Bool := r.render == render_chars r.chars 0

def rows_rendered (st : EState) : Bool := st.rows.all row_rendered

/-- An empty editor state used by concrete instances below. -/
def empty_state : EState :=
  { rows := [], cx := 0, cy := 0, rx := 0, rowoff := 0, coloff := 0,
    winrows := 5, wincols := 10, lnmargin := 2, dirty := 0 }

/-- Counterexample to claim C2 as stated: insert_row sets ndisp to 0 and
update_row never recomputes it, so after inserting the row "ab" the
glyph count is 0 while its render holds 2 non-continuation bytes. -/
theorem insert_row_stale_ndisp :
    ((insert_row empty_state 0 [97, 98]).rows.getD 0 row0).ndisp ≠
      (count_visible ((insert_row empty_state 0 [97, 98]).rows.getD 0 row0).render : Int) := by
  decide

theorem update_row_rendered (r : textrow) : row_rendered (update_row r) = true := by
  simp [row_rendered, update_row]

theorem rows_rendered_iff (st : EState) :
    rows_rendered st = true ↔ ∀ r ∈ st.rows, row_rendered r = true := by
  rw [rows_rendered, List.all_eq_true]

theorem rows_rendered_insert_row (st : EState) (a : Nat) (s : List Nat)
    (h : rows_rendered st = true) : rows_rendered (insert_row st a s) = true := by
  rw [insert_row]
  split
  · exact h
  · rename_i hgt
    rw [rows_rendered_iff] at h ⊢
    intro r hr
    have hr2 : r ∈ st.rows.insertIdx a (mk_row s) := hr
    rcases (List.mem_insertIdx (by omega)).mp hr2 with h1 | h1
    · rw [h1]
      exact update_row_rendered _
    · exact h r h1

theorem insert_char_rendered (r : textrow) (a : Nat) (c : Int) :
    row_rendered (insert_char r a c) = true :=
  update_row_rendered _

theorem delete_char_rendered (r : textrow) (a : Nat) (h : row_rendered r = true) :
    row_rendered (delete_char r a) = true := by
  rw [delete_char]
  split
  · exact h
  · exact update_row_rendered _

theorem row_strcat_rendered (r : textrow) (s : List Nat) :
    row_rendered (row_strcat r s) = true :=
  update_row_rendered _

theorem rows_rendered_set (rows : List textrow) (n : Nat) (r : textrow)
    (h : ∀ x ∈ rows, row_rendered x = true) (hr : row_rendered r = true) :
    ∀ x ∈ rows.set n r, row_rendered x = true := by
  intro x hx
  rcases List.mem_or_eq_of_mem_set hx with h1 | h1
  · exact h x h1
  · rw [h1]
    exact hr

theorem rows_rendered_newline (st : EState) (h : rows_rendered st = true) :
    rows_rendered (newline_at_cursor st) = true := by
  rw [newline_at_cursor]
  split
  · rename_i hcx
    exact rows_rendered_insert_row st st.cy [] h
  · rename_i hcx
    rw [rows_rendered_iff]
    intro r hr
    have h2 := rows_rendered_insert_row st (st.cy + 1)
      ((st.rows.getD st.cy row0).chars.drop st.cx) h
    rw [rows_rendered_iff] at h2
    exact rows_rendered_set _ _ _ h2 (update_row_rendered _) r hr

/-- Amended C2: after every operation that changes a row's raw bytes,
the row's render is exactly the recomputation from its chars (tab bytes
expanded to spaces up to the next multiple of TIN_TAB_STOP, all other
bytes copied; rlen, being the render's length, equals the expanded
length): update_row establishes this for any row, insert_char and
row_strcat establish it outright for the row they touch, and insert_row,
delete_char and the newline split preserve it across the whole document.
The glyph-count clause of the original claim is dropped: ndisp is set to
0 by insert_row and only ever stepped by one per visible raw byte at the
cursor, so it does not track the render's non-continuation byte count. -/
theorem render_is_tab_expansion :
    (∀ r : textrow, row_rendered (update_row r) = true) ∧
    (∀ st a s, rows_rendered st = true → rows_rendered (insert_row st a s) = true) ∧
    (∀ r a c, row_rendered (insert_char r a c) = true) ∧
    (∀ r a, row_rendered r = true → row_rendered (delete_char r a) = true) ∧
    (∀ r s, row_rendered (row_strcat r s) = true) ∧
    (∀ st, rows_rendered st = true → rows_rendered (newline_at_cursor st) = true) :=
  ⟨update_row_rendered, rows_rendered_insert_row, insert_char_rendered,
    delete_char_rendered, row_strcat_rendered, rows_rendered_newline⟩

/-- Witness for the amended C2: inserting the row "a\tb" into the empty
document, then splitting a one-row document at the cursor, both leave
every render equal to its recomputation. -/
theorem render_is_tab_expansion_witness :
    rows_rendered (insert_row empty_state 0 [97, 9, 98]) = true ∧
      rows_rendered (newline_at_cursor (insert_row empty_state 0 [97, 9, 98])) = true :=
  ⟨render_is_tab_expansion.2.1 empty_state 0 [97, 9, 98] (by decide),
    render_is_tab_expansion.2.2.2.2.2 (insert_row empty_state 0 [97, 9, 98])
      (render_is_tab_expansion.2.1 empty_state 0 [97, 9, 98] (by decide))⟩

/- ------------------------------------------------------------------ -/
/- Lemmas towards claim C1                                             -/
/- ------------------------------------------------------------------ -/

theorem body_byte_low (c : Nat) (h : c < 128) : UTF_BODY_BYTE c = false := by
  rw [UTF_BODY_BYTE]
  simp only [beq_eq_false_iff_ne, ne_eq]
  have h2 : c &&& 192 ≤ c := Nat.and_le_left
  omega

theorem body_byte_head2 (c : Nat) (h : 192 ≤ c ∧ c < 224) : UTF_BODY_BYTE c = false := by
  obtain ⟨ha, hb⟩ := h
  interval_cases c <;> rfl

theorem body_byte_head3 (c : Nat) (h : 224 ≤ c ∧ c < 240) : UTF_BODY_BYTE c = false := by
  obtain ⟨ha, hb⟩ := h
  interval_cases c <;> rfl

theorem body_byte_head4 (c : Nat) (h : 240 ≤ c ∧ c < 248) : UTF_BODY_BYTE c = false := by
  obtain ⟨ha, hb⟩ := h
  interval_cases c <;> rfl

theorem utf8_wf_head (l : List Nat) (h : utf8_wf l = true) :
    l = [] ∨ UTF_BODY_BYTE (l.getD 0 0) = false := by
  cases l with
  | nil => left; rfl
  | cons c cs =>
    right
    rw [utf8_wf, utf8_scan] at h
    show UTF_BODY_BYTE c = false
    by_cases h1 : c < 128
    · exact body_byte_low c h1
    · rw [if_neg h1] at h
      by_cases h2 : 192 ≤ c ∧ c < 224
      · exact body_byte_head2 c h2
      · rw [if_neg h2] at h
        by_cases h3 : 224 ≤ c ∧ c < 240
        · exact body_byte_head3 c h3
        · rw [if_neg h3] at h
          by_cases h4 : 240 ≤ c ∧ c < 248
          · exact body_byte_head4 c h4
          · rw [if_neg h4] at h
            simp at h

theorem cx_ok_iff (st : EState) :
    cx_ok st = true ↔
      st.cx = 0 ∨ st.cx = (st.rows.getD st.cy row0).chars.length ∨
        (st.cx < (st.rows.getD st.cy row0).chars.length ∧
          UTF_BODY_BYTE ((st.rows.getD st.cy row0).chars.getD st.cx 0) = false) := by
  rw [cx_ok]
  simp only [Bool.or_eq_true, beq_iff_eq, Bool.and_eq_true, decide_eq_true_eq,
    Bool.not_eq_true', or_assoc]

theorem cx_ok_strict (chars : List Nat) (cx : Nat)
    (hhead : chars = [] ∨ UTF_BODY_BYTE (chars.getD 0 0) = false)
    (h : cx = 0 ∨ cx = chars.length ∨
      (cx < chars.length ∧ UTF_BODY_BYTE (chars.getD cx 0) = false)) :
    cx = chars.length ∨ (cx < chars.length ∧ UTF_BODY_BYTE (chars.getD cx 0) = false) := by
  rcases h with h | h | h
  · subst h
    rcases hhead with h2 | h2
    · left
      rw [h2]
      rfl
    · cases Nat.eq_zero_or_pos chars.length with
      | inl hz => left; omega
      | inr hp => right; exact ⟨hp, h2⟩
  · left; exact h
  · right; exact h

theorem repair_left_ok (chars : List Nat) (cx : Nat) :
    repair_left chars cx = 0 ∨
      UTF_BODY_BYTE (chars.getD (repair_left chars cx) 0) = false := by
  induction cx with
  | zero => left; rfl
  | succ k ih =>
    rw [repair_left]
    split
    · exact ih
    · rename_i hb
      right
      simpa using hb

theorem skip_body_getD (l : List Nat) : UTF_BODY_BYTE (l.getD (skip_body l) 0) = false := by
  induction l with
  | nil => rfl
  | cons c cs ih =>
    rw [skip_body]
    split
    · simpa using ih
    · rename_i hb
      simpa using hb

theorem repair_right_ok (chars : List Nat) (cx : Nat) :
    repair_right chars cx = 0 ∨
      UTF_BODY_BYTE (chars.getD (repair_right chars cx) 0) = false := by
  rw [repair_right]
  split
  · left; rfl
  · right
    rw [nat_getD_add_drop]
    exact skip_body_getD _

theorem clamp_ok (chars : List Nat) (cx1 : Nat)
    (h : cx1 = 0 ∨ UTF_BODY_BYTE (chars.getD cx1 0) = false) :
    (if cx1 > chars.length then chars.length else cx1) = 0 ∨
      (if cx1 > chars.length then chars.length else cx1) = chars.length ∨
      ((if cx1 > chars.length then chars.length else cx1) < chars.length ∧
        UTF_BODY_BYTE (chars.getD (if cx1 > chars.length then chars.length else cx1) 0) =
          false) := by
  split
  · right; left; rfl
  · rename_i hle
    rcases h with h | h
    · left; exact h
    · rcases Nat.lt_or_ge cx1 chars.length with hlt | hge
      · right; right; exact ⟨hlt, h⟩
      · right; left; omega

theorem move_clamp_rows (key : Int) (st : EState) : (move_clamp key st).rows = st.rows := rfl

theorem move_clamp_cy (key : Int) (st : EState) : (move_clamp key st).cy = st.cy := rfl

theorem move_clamp_winrows (key : Int) (st : EState) :
    (move_clamp key st).winrows = st.winrows := rfl

theorem move_clamp_cx (key : Int) (st : EState) :
    (move_clamp key st).cx =
      if (if key = ARROW_RIGHT then repair_right (st.rows.getD st.cy row0).chars st.cx
          else repair_left (st.rows.getD st.cy row0).chars st.cx) >
          (st.rows.getD st.cy row0).chars.length
      then (st.rows.getD st.cy row0).chars.length
      else
        if key = ARROW_RIGHT then repair_right (st.rows.getD st.cy row0).chars st.cx
        else repair_left (st.rows.getD st.cy row0).chars st.cx := rfl

theorem move_clamp_cx_ok (key : Int) (st : EState) : cx_ok (move_clamp key st) = true := by
  rw [cx_ok_iff, move_clamp_rows, move_clamp_cy, move_clamp_cx]
  apply clamp_ok
  split
  · exact repair_right_ok _ _
  · exact repair_left_ok _ _

theorem move_switch_rows (key : Int) (st : EState) : (move_switch key st).rows = st.rows := by
  rw [move_switch]
  split_ifs <;> rfl

theorem move_switch_winrows (key : Int) (st : EState) :
    (move_switch key st).winrows = st.winrows := by
  rw [move_switch]
  split_ifs <;> rfl

theorem move_switch_cy_le (key : Int) (st : EState) (h : st.cy ≤ st.rows.length) :
    (move_switch key st).cy ≤ st.rows.length := by
  rw [move_switch]
  split_ifs <;> (try dsimp only) <;> omega

theorem move_cursor_cx_ok (key : Int) (st : EState) : cx_ok (move_cursor key st) = true :=
  move_clamp_cx_ok key (move_switch key st)

theorem move_cursor_rows (key : Int) (st : EState) : (move_cursor key st).rows = st.rows := by
  rw [move_cursor, move_clamp_rows, move_switch_rows]

theorem move_cursor_winrows (key : Int) (st : EState) :
    (move_cursor key st).winrows = st.winrows := by
  rw [move_cursor, move_clamp_winrows, move_switch_winrows]

theorem move_cursor_cy_le (key : Int) (st : EState) (h : st.cy ≤ st.rows.length) :
    (move_cursor key st).cy ≤ (move_cursor key st).rows.length := by
  rw [move_cursor, move_clamp_cy, move_clamp_rows, move_switch_rows]
  exact move_switch_cy_le key st h

theorem page_loop_rows (key : Int) (n : Nat) (st : EState) :
    (page_loop key n st).rows = st.rows := by
  induction n generalizing st with
  | zero => rfl
  | succ n ih =>
    rw [page_loop, ih, move_cursor_rows]

theorem page_loop_winrows (key : Int) (n : Nat) (st : EState) :
    (page_loop key n st).winrows = st.winrows := by
  induction n generalizing st with
  | zero => rfl
  | succ n ih =>
    rw [page_loop, ih, move_cursor_winrows]

theorem page_loop_cy_le (key : Int) (n : Nat) (st : EState) (h : st.cy ≤ st.rows.length) :
    (page_loop key n st).cy ≤ (page_loop key n st).rows.length := by
  induction n generalizing st with
  | zero => exact h
  | succ n ih =>
    rw [page_loop]
    apply ih
    have h2 := move_cursor_cy_le key st h
    rw [move_cursor_rows] at h2
    rwa [move_cursor_rows]

theorem page_loop_cx_ok (key : Int) (n : Nat) (st : EState) (h : 1 ≤ n) :
    cx_ok (page_loop key n st) = true := by
  induction n generalizing st with
  | zero => omega
  | succ n ih =>
    rw [page_loop]
    cases Nat.eq_zero_or_pos n with
    | inl hz =>
      subst hz
      rw [page_loop]
      exact move_cursor_cx_ok key st
    | inr hp => exact ih (move_cursor key st) hp

theorem cx_ok_cast (st st2 : EState) (hrows : st2.rows = st.rows) (hcy : st2.cy = st.cy)
    (hcx : st2.cx = st.cx) (h : cx_ok st = true) : cx_ok st2 = true := by
  rw [cx_ok, hrows, hcy, hcx, ← cx_ok]
  exact h

theorem page_cursor_inv (key : Int) (st : EState) (hcy : st.cy ≤ st.rows.length)
    (hwin : 1 ≤ st.winrows) :
    cx_ok (page_cursor key st) = true ∧
      (page_cursor key st).cy ≤ (page_cursor key st).rows.length := by
  rw [page_cursor]
  exact ⟨page_loop_cx_ok _ _ _ hwin, page_loop_cy_le _ _ _ hcy⟩

theorem page_key_inv (up : Bool) (st : EState) (hcy : st.cy ≤ st.rows.length)
    (hro : st.rowoff ≤ st.cy) (hwin : 1 ≤ st.winrows) :
    cx_ok (page_key up st) = true ∧ (page_key up st).cy ≤ (page_key up st).rows.length := by
  cases up with
  | true =>
    show cx_ok (page_cursor PAGE_UP { st with cy := st.rowoff }) = true ∧
      (page_cursor PAGE_UP { st with cy := st.rowoff }).cy ≤
        (page_cursor PAGE_UP { st with cy := st.rowoff }).rows.length
    exact page_cursor_inv PAGE_UP { st with cy := st.rowoff } (by dsimp only; omega) hwin
  | false =>
    show cx_ok (page_cursor PAGE_DOWN
        { st with cy := if st.rowoff + st.winrows - 1 > st.rows.length then st.rows.length
                        else st.rowoff + st.winrows - 1 }) = true ∧ _
    refine page_cursor_inv PAGE_DOWN _ ?_ hwin
    dsimp only
    split <;> omega

theorem tr_insertIdx_length (l : List textrow) (a : textrow) :
    l.insertIdx l.length a = l ++ [a] := by
  induction l with
  | nil => rfl
  | cons x xs ih =>
    show x :: xs.insertIdx xs.length a = x :: (xs ++ [a])
    rw [ih]

theorem rows_wf_getD (st : EState) (n : Nat) (hwf : rows_wf st = true)
    (h : n < st.rows.length) : utf8_wf ((st.rows.getD n row0).chars) = true := by
  rw [rows_wf, List.all_eq_true] at hwf
  exact hwf _ (tr_getD_mem st.rows n h)

theorem insert_row_cx (st : EState) (a : Nat) (s : List Nat) : (insert_row st a s).cx = st.cx := by
  rw [insert_row]
  split <;> rfl

theorem insert_row_cy (st : EState) (a : Nat) (s : List Nat) : (insert_row st a s).cy = st.cy := by
  rw [insert_row]
  split <;> rfl

theorem insert_row_winrows (st : EState) (a : Nat) (s : List Nat) :
    (insert_row st a s).winrows = st.winrows := by
  rw [insert_row]
  split <;> rfl

theorem ins_row2_chars (c : Int) (row : textrow) (cx : Nat) :
    (ins_row2 c row cx).chars =
      row.chars.insertIdx (if cx > row.chars.length then row.chars.length else cx)
        (byte_of_int c) := by
  rw [ins_row2]
  split <;> rfl

theorem ins_apply_rows (c : Int) (st1 : EState) :
    (ins_apply c st1).rows =
      st1.rows.set st1.cy (ins_row2 c (st1.rows.getD st1.cy row0) st1.cx) := rfl

theorem ins_apply_cy (c : Int) (st1 : EState) : (ins_apply c st1).cy = st1.cy := rfl

theorem ins_apply_cx (c : Int) (st1 : EState) : (ins_apply c st1).cx = st1.cx + 1 := rfl

theorem ins_apply_inv (c : Int) (st1 : EState) (hcy1 : st1.cy < st1.rows.length)
    (hstrict : st1.cx = (st1.rows.getD st1.cy row0).chars.length ∨
      (st1.cx < (st1.rows.getD st1.cy row0).chars.length ∧
        UTF_BODY_BYTE ((st1.rows.getD st1.cy row0).chars.getD st1.cx 0) = false)) :
    cx_ok (ins_apply c st1) = true ∧
      (ins_apply c st1).cy ≤ (ins_apply c st1).rows.length := by
  have hle : st1.cx ≤ (st1.rows.getD st1.cy row0).chars.length := by
    rcases hstrict with h | h
    · omega
    · omega
  constructor
  · rw [cx_ok_iff, ins_apply_rows, ins_apply_cy, ins_apply_cx,
      tr_getD_set _ _ _ hcy1, ins_row2_chars, if_neg (by omega)]
    have hlen : ((st1.rows.getD st1.cy row0).chars.insertIdx st1.cx (byte_of_int c)).length =
        (st1.rows.getD st1.cy row0).chars.length + 1 := List.length_insertIdx _ _ hle
    rcases hstrict with h | h
    · right
      left
      omega
    · right
      right
      constructor
      · omega
      · rw [nat_getD_insertIdx_succ _ _ _ hle]
        exact h.2
  · rw [ins_apply_rows, ins_apply_cy, List.length_set]
    omega

theorem insert_at_cursor_inv (c : Int) (st : EState) (hwf : rows_wf st = true)
    (hok : cx_ok st = true) (hcy : st.cy ≤ st.rows.length) :
    cx_ok (insert_at_cursor c st) = true ∧
      (insert_at_cursor c st).cy ≤ (insert_at_cursor c st).rows.length := by
  rw [insert_at_cursor]
  by_cases hcase : st.cy = st.rows.length
  · rw [if_pos hcase]
    have hcx0 : st.cx = 0 := by
      rw [cx_ok_iff, tr_getD_oob st.rows st.cy (by omega)] at hok
      rcases hok with h | h | h
      · exact h
      · simpa [row0] using h
      · exfalso
        have h2 := h.1
        simp [row0] at h2
    have h1 : (insert_row st st.rows.length []).rows = st.rows ++ [mk_row []] := by
      rw [insert_row, if_neg (by omega)]
      exact tr_insertIdx_length st.rows (mk_row [])
    apply ins_apply_inv
    · rw [insert_row_cy, h1, List.length_append, hcase]
      simp
    · left
      rw [insert_row_cx, insert_row_cy, h1, hcx0, hcase, tr_getD_append_length]
      rfl
  · rw [if_neg hcase]
    apply ins_apply_inv
    · omega
    · have hh := utf8_wf_head _ (rows_wf_getD st st.cy hwf (by omega))
      rw [cx_ok_iff] at hok
      exact cx_ok_strict _ _ hh hok

theorem backspace_chars_spec (cx : Nat) : ∀ (chars : List Nat), cx ≤ chars.length →
    (backspace_chars chars cx).2 ≤ cx ∧
    (backspace_chars chars cx).1.length + cx = chars.length + (backspace_chars chars cx).2 ∧
    (backspace_chars chars cx).1.drop (backspace_chars chars cx).2 = chars.drop cx := by
  induction cx with
  | zero =>
    intro chars h
    refine ⟨Nat.le_refl 0, ?_, rfl⟩
    show chars.length + 0 = chars.length + 0
    rfl
  | succ k ih =>
    intro chars h
    rw [backspace_chars]
    split
    · have hlen : (chars.eraseIdx k).length = chars.length - 1 := by
        rw [List.length_eraseIdx, if_pos (by omega)]
      obtain ⟨h1, h2, h3⟩ := ih (chars.eraseIdx k) (by omega)
      refine ⟨by omega, by omega, ?_⟩
      rw [h3, nat_drop_eraseIdx]
    · have hlen : (chars.eraseIdx k).length = chars.length - 1 := by
        rw [List.length_eraseIdx, if_pos (by omega)]
      refine ⟨?_, ?_, ?_⟩
      · show k ≤ k + 1
        omega
      · show (chars.eraseIdx k).length + (k + 1) = chars.length + k
        omega
      · show (chars.eraseIdx k).drop k = chars.drop (k + 1)
        exact nat_drop_eraseIdx chars k

theorem update_row_chars (r : textrow) : (update_row r).chars = r.chars := rfl

theorem backspace_delete_inv (st : EState) (hcy : st.cy < st.rows.length)
    (hstrict : st.cx = (st.rows.getD st.cy row0).chars.length ∨
      (st.cx < (st.rows.getD st.cy row0).chars.length ∧
        UTF_BODY_BYTE ((st.rows.getD st.cy row0).chars.getD st.cx 0) = false)) :
    cx_ok (backspace_delete st) = true ∧
      (backspace_delete st).cy ≤ (backspace_delete st).rows.length := by
  have hle : st.cx ≤ (st.rows.getD st.cy row0).chars.length := by
    rcases hstrict with h | h
    · omega
    · omega
  obtain ⟨h1, h2, h3⟩ := backspace_chars_spec st.cx ((st.rows.getD st.cy row0).chars) hle
  have hrows : (backspace_delete st).rows =
      st.rows.set st.cy
        (update_row
          { st.rows.getD st.cy row0 with
            chars := (backspace_chars (st.rows.getD st.cy row0).chars st.cx).1,
            ndisp := (st.rows.getD st.cy row0).ndisp - 1 }) := rfl
  have hbcy : (backspace_delete st).cy = st.cy := rfl
  have hbcx : (backspace_delete st).cx =
      (backspace_chars (st.rows.getD st.cy row0).chars st.cx).2 := rfl
  constructor
  · rw [cx_ok_iff, hrows, hbcy, hbcx, tr_getD_set _ _ _ hcy, update_row_chars]
    dsimp only
    rcases hstrict with hs | hs
    · right
      left
      omega
    · right
      right
      constructor
      · omega
      · have e1 : (backspace_chars (st.rows.getD st.cy row0).chars st.cx).1.getD
            (backspace_chars (st.rows.getD st.cy row0).chars st.cx).2 0 =
            ((st.rows.getD st.cy row0).chars.drop st.cx).getD 0 0 := by
          rw [nat_getD_drop _ (backspace_chars (st.rows.getD st.cy row0).chars st.cx).2, h3]
        rw [e1, ← nat_getD_drop]
        exact hs.2
  · rw [hrows, hbcy, List.length_set]
    omega

theorem row_strcat_chars (r : textrow) (s : List Nat) :
    (row_strcat r s).chars = r.chars ++ s := rfl

theorem backspace_merge_inv (st : EState) (hwf : rows_wf st = true)
    (hcy0 : 0 < st.cy) (hcy : st.cy < st.rows.length) :
    cx_ok (backspace_merge st) = true ∧
      (backspace_merge st).cy ≤ (backspace_merge st).rows.length := by
  have heq : backspace_merge st =
      { st with
        cx := (st.rows.getD (st.cy - 1) row0).chars.length,
        rows := (st.rows.set (st.cy - 1)
          (row_strcat (st.rows.getD (st.cy - 1) row0)
            (st.rows.getD st.cy row0).chars)).eraseIdx st.cy,
        dirty := st.dirty + 1 + 1,
        cy := st.cy - 1 } := by
    rw [backspace_merge, del_row,
      if_neg (show ¬ st.cy ≥ (st.rows.set (st.cy - 1) _).length by
        rw [List.length_set]; omega)]
  rw [heq]
  have hgetD : ((st.rows.set (st.cy - 1)
      (row_strcat (st.rows.getD (st.cy - 1) row0)
        (st.rows.getD st.cy row0).chars)).eraseIdx st.cy).getD (st.cy - 1) row0 =
      row_strcat (st.rows.getD (st.cy - 1) row0) (st.rows.getD st.cy row0).chars := by
    rw [tr_getD_eraseIdx_lt _ _ _ (by omega), tr_getD_set _ _ _ (by omega)]
  have hlen : ((st.rows.set (st.cy - 1)
      (row_strcat (st.rows.getD (st.cy - 1) row0)
        (st.rows.getD st.cy row0).chars)).eraseIdx st.cy).length = st.rows.length - 1 := by
    rw [List.length_eraseIdx, List.length_set, if_pos (by omega)]
  constructor
  · rw [cx_ok_iff]
    show (st.rows.getD (st.cy - 1) row0).chars.length = 0 ∨
      (st.rows.getD (st.cy - 1) row0).chars.length = _ ∨ _
    rw [hgetD, row_strcat_chars]
    cases hcur : (st.rows.getD st.cy row0).chars with
    | nil =>
      right
      left
      simp
    | cons b tl =>
      have hh := utf8_wf_head _ (rows_wf_getD st st.cy hwf hcy)
      rw [hcur] at hh
      rcases hh with hh | hh
      · exact absurd hh (by simp)
      · right
        right
        constructor
        · rw [List.length_append]
          simp
        · rw [nat_getD_append_length]
          simpa using hh
  · show st.cy - 1 ≤ _
    rw [hlen]
    omega

theorem backspace_at_cursor_inv (st : EState) (hwf : rows_wf st = true)
    (hok : cx_ok st = true) (hcy : st.cy ≤ st.rows.length) :
    cx_ok (backspace_at_cursor st) = true ∧
      (backspace_at_cursor st).cy ≤ (backspace_at_cursor st).rows.length := by
  rw [backspace_at_cursor]
  split_ifs with h1 h2 h3
  · exact ⟨hok, hcy⟩
  · exact ⟨hok, hcy⟩
  · have hlt : st.cy < st.rows.length := by omega
    apply backspace_delete_inv st hlt
    have hh := utf8_wf_head _ (rows_wf_getD st st.cy hwf hlt)
    rw [cx_ok_iff] at hok
    exact cx_ok_strict _ _ hh hok
  · have hcy0 : 0 < st.cy := by
      by_contra hz
      exact h1 ⟨by omega, by omega⟩
    exact backspace_merge_inv st hwf hcy0 (by omega)

theorem newline_at_cursor_inv (st : EState) (hok : cx_ok st = true)
    (hcy : st.cy ≤ st.rows.length) :
    cx_ok (newline_at_cursor st) = true ∧
      (newline_at_cursor st).cy ≤ (newline_at_cursor st).rows.length := by
  rw [newline_at_cursor]
  split
  · constructor
    · rw [cx_ok_iff]
      left
      rfl
    · have hr : (insert_row st st.cy []).rows = st.rows.insertIdx st.cy (mk_row []) := by
        rw [insert_row, if_neg (by omega)]
      show st.cy + 1 ≤ (insert_row st st.cy []).rows.length
      rw [hr, List.length_insertIdx _ _ (by omega)]
      omega
  · rename_i hcx
    have hlt : st.cy < st.rows.length := by
      rcases Nat.lt_or_ge st.cy st.rows.length with h | h
      · exact h
      · exfalso
        rw [cx_ok_iff, tr_getD_oob st.rows st.cy h] at hok
        rcases hok with h2 | h2 | h2
        · exact hcx h2
        · exact hcx (by simpa [row0] using h2)
        · have h3 := h2.1
          simp [row0] at h3
    constructor
    · rw [cx_ok_iff]
      left
      rfl
    · have hr : (insert_row st (st.cy + 1) ((st.rows.getD st.cy row0).chars.drop st.cx)).rows =
          st.rows.insertIdx (st.cy + 1)
            (mk_row ((st.rows.getD st.cy row0).chars.drop st.cx)) := by
        rw [insert_row, if_neg (by omega)]
      show st.cy + 1 ≤
        ((insert_row st (st.cy + 1) ((st.rows.getD st.cy row0).chars.drop st.cx)).rows.set st.cy
          (update_row
            { st.rows.getD st.cy row0 with
              chars := (st.rows.getD st.cy row0).chars.take st.cx })).length
      rw [List.length_set, hr, List.length_insertIdx _ _ (by omega)]
      omega

theorem page_key_winrows (up : Bool) (st : EState) : (page_key up st).winrows = st.winrows := by
  cases up with
  | true =>
    show (page_cursor PAGE_UP { st with cy := st.rowoff }).winrows = st.winrows
    rw [page_cursor, page_loop_winrows]
  | false =>
    show (page_cursor PAGE_DOWN
      { st with cy := if st.rowoff + st.winrows - 1 > st.rows.length then st.rows.length
                      else st.rowoff + st.winrows - 1 }).winrows = st.winrows
    rw [page_cursor, page_loop_winrows]

theorem del_row_winrows (st : EState) (a : Nat) : (del_row st a).winrows = st.winrows := by
  rw [del_row]
  split <;> rfl

theorem insert_at_cursor_winrows (c : Int) (st : EState) :
    (insert_at_cursor c st).winrows = st.winrows := by
  rw [insert_at_cursor]
  split
  · show (insert_row st st.rows.length []).winrows = st.winrows
    exact insert_row_winrows st st.rows.length []
  · rfl

theorem backspace_winrows (st : EState) : (backspace_at_cursor st).winrows = st.winrows := by
  rw [backspace_at_cursor]
  split_ifs
  · rfl
  · rfl
  · rfl
  · show (del_row _ st.cy).winrows = st.winrows
    rw [del_row_winrows]

theorem newline_winrows (st : EState) : (newline_at_cursor st).winrows = st.winrows := by
  rw [newline_at_cursor]
  split
  · show (insert_row st st.cy []).winrows = st.winrows
    exact insert_row_winrows st st.cy []
  · show (insert_row st (st.cy + 1) ((st.rows.getD st.cy row0).chars.drop st.cx)).winrows =
      st.winrows
    exact insert_row_winrows st (st.cy + 1) _

theorem apply_key_winrows (op : EditOp) (st : EState) :
    (apply_key op st).winrows = st.winrows := by
  cases op with
  | move key => exact move_cursor_winrows key st
  | page up => exact page_key_winrows up st
  | home => rfl
  | endk =>
    show (if st.cy < st.rows.length then _ else st).winrows = st.winrows
    split <;> rfl
  | ins c => exact insert_at_cursor_winrows c st
  | backspace => exact backspace_winrows st
  | newline => exact newline_winrows st

theorem edit_step_winrows (op : EditOp) (st : EState) :
    (edit_step op st).winrows = st.winrows := by
  rw [edit_step, apply_key_winrows]
  rfl

theorem scroll_rowoff_le (st : EState) (hwin : 1 ≤ st.winrows) :
    (scroll st).rowoff ≤ st.cy := by
  show (if st.cy ≥ (if st.cy < st.rowoff then st.cy else st.rowoff) + st.winrows
        then st.cy - st.winrows + 1
        else if st.cy < st.rowoff then st.cy else st.rowoff) ≤ st.cy
  split_ifs <;> omega

theorem refresh_rowoff_le (st : EState) (hwin : 1 ≤ st.winrows) :
    (refresh_state st).rowoff ≤ (refresh_state st).cy :=
  scroll_rowoff_le st hwin

theorem apply_key_inv (op : EditOp) (st : EState) (hwf : rows_wf st = true)
    (hok : cx_ok st = true) (hcy : st.cy ≤ st.rows.length) (hro : st.rowoff ≤ st.cy)
    (hwin : 1 ≤ st.winrows) :
    cx_ok (apply_key op st) = true ∧ (apply_key op st).cy ≤ (apply_key op st).rows.length := by
  cases op with
  | move key => exact ⟨move_cursor_cx_ok key st, move_cursor_cy_le key st hcy⟩
  | page up => exact page_key_inv up st hcy hro hwin
  | home =>
    constructor
    · rw [cx_ok_iff]
      left
      rfl
    · exact hcy
  | endk =>
    show cx_ok (if st.cy < st.rows.length
        then { st with cx := (st.rows.getD st.cy row0).chars.length } else st) = true ∧
      (if st.cy < st.rows.length
        then { st with cx := (st.rows.getD st.cy row0).chars.length } else st).cy ≤
        (if st.cy < st.rows.length
          then { st with cx := (st.rows.getD st.cy row0).chars.length } else st).rows.length
    split
    · constructor
      · rw [cx_ok_iff]
        right
        left
        rfl
      · exact hcy
    · exact ⟨hok, hcy⟩
  | ins c => exact insert_at_cursor_inv c st hwf hok hcy
  | backspace => exact backspace_at_cursor_inv st hwf hok hcy
  | newline => exact newline_at_cursor_inv st hok hcy

theorem edit_step_inv (op : EditOp) (st : EState) (hwf : rows_wf st = true)
    (hok : cx_ok st = true) (hcy : st.cy ≤ st.rows.length) (hwin : 1 ≤ st.winrows) :
    cx_ok (edit_step op st) = true ∧ (edit_step op st).cy ≤ (edit_step op st).rows.length := by
  rw [edit_step]
  exact apply_key_inv op (refresh_state st) hwf hok hcy (refresh_rowoff_le st hwin) hwin

/-- A well-formed two-row document ["a", ""] with the cursor at the
start of the second row, in a 5x10 viewport. -/
def c1_state : EState :=
  { rows := [mk_row [97], mk_row []], cx := 0, cy := 1, rx := 0, rowoff := 0, coloff := 0,
    winrows := 5, wincols := 10, lnmargin := 2, dirty := 0 }

/-- Counterexample to claim C1 as stated: starting from a document whose
rows all hold well-formed UTF-8 (and a valid cursor in a nonempty
viewport), the key sequence 0x80, Home, Backspace leaves cx on a UTF-8
continuation byte.  The lone byte 0x80 is inserted as-is (making row 1
the non-well-formed [0x80]); the backspace at column 0 then merges it
onto row 0 ("a"), placing cx = 1 on the merged row [0x61, 0x80], which
is neither a row boundary (the length is 2) nor a non-continuation
byte. -/
theorem cursor_lands_on_continuation :
    rows_wf c1_state = true ∧ cx_ok c1_state = true ∧ 1 ≤ c1_state.winrows ∧
      c1_state.cy ≤ c1_state.rows.length ∧
      cx_ok (edit_run [EditOp.ins (-128), EditOp.home, EditOp.backspace] c1_state) = false := by
  decide

/-- Amended C1: for every sequence of cursor-moving operations
(move_cursor, the PageUp/PageDown handling, Home/End) and editing
operations (insert_at_cursor, backspace_at_cursor, newline_at_cursor)
run through the main loop (refresh_screen then handle_key), if every row
holds well-formed UTF-8 at each state at which a key is processed, the
viewport shows at least one text row (winrows >= 1), and the starting
cursor satisfies the invariant (cx at a row boundary or at a
non-continuation byte, cy at most the row count), then the cursor byte
index cx afterwards is a row boundary (0 or the row length) or the index
of a byte that is not a UTF-8 continuation byte.  Without the
well-formedness of intermediate states the property fails, because a
lone inserted continuation byte can be merged behind a complete row (see
the counterexample). -/
theorem cursor_never_on_continuation (s : EState) (ops : List EditOp) (s2 : EState)
    (hwin : 1 ≤ s.winrows) (hok : cx_ok s = true) (hcy : s.cy ≤ s.rows.length)
    (hrun : WFRun s ops s2) : cx_ok s2 = true := by
  revert hwin hok hcy
  induction hrun with
  | nil s => intro h1 h2 h3; exact h2
  | cons s op ops s2 hwfs hrun2 ih =>
    intro h1 h2 h3
    apply ih
    · rw [edit_step_winrows]
      exact h1
    · exact (edit_step_inv op s hwfs h2 h3 h1).1
    · exact (edit_step_inv op s hwfs h2 h3 h1).2

/-- Witness for the amended C1: one ArrowRight step on the well-formed
two-row document keeps the cursor invariant. -/
theorem cursor_never_on_continuation_witness :
    cx_ok (edit_step (EditOp.move ARROW_RIGHT) c1_state) = true :=
  cursor_never_on_continuation c1_state [EditOp.move ARROW_RIGHT]
    (edit_step (EditOp.move ARROW_RIGHT) c1_state) (by decide) (by decide) (by decide)
    (WFRun.cons c1_state (EditOp.move ARROW_RIGHT) []
      (edit_step (EditOp.move ARROW_RIGHT) c1_state) (by decide) (WFRun.nil _))
